import Mathlib

/-!
Verification development for `atlasify_selected_object.py`, a no-bake texture
atlas builder.  The Python source is shallowly embedded below: pure helpers
become Lean functions, the Blender/PIL host API is modelled by small total
functions that follow the documented host behaviour, machine integers are
`Nat`, and Python floats on UV coordinates are embedded as `ℚ`.  Fallible
code paths (statements that can raise) return `Except String`.
-/

/-! ## Pixels and images (model of PIL images) -/

structure RGBA where
  r : Nat
  g : Nat
  b : Nat
  a : Nat
deriving DecidableEq, Repr, Inhabited

/-- A decoded raster image: dimensions plus a pixel accessor.  Models a PIL
image that has been opened from a path; `α` is the band type (`RGBA` for
color images, `Nat` for single-channel grayscale). -/
structure Img (α : Type) where
  width : Nat
  height : Nat
  pixel : Nat → Nat → α

instance {α : Type} [Inhabited α] : Inhabited (Img α) :=
  ⟨⟨0, 0, fun _ _ => default⟩⟩

def imgConst (α : Type) (w h : Nat) (c : α) : Img α := ⟨w, h, fun _ _ => c⟩

/-- Model of `PIL.Image.resize`: produce a `tw × th` image sampling the
source.  The concrete resampling filter is external-library behaviour; it is
modelled as nearest sampling, which the claims do not depend on. -/
def resizeTo {α : Type} (im : Img α) (tw th : Nat) : Img α :=
  ⟨tw, th, fun x y => im.pixel (x * im.width / tw) (y * im.height / th)⟩

/-- Model of PIL `convert('L')` luminance. -/
def lum (c : RGBA) : Nat := (299 * c.r + 587 * c.g + 114 * c.b) / 1000

def convertL (im : Img RGBA) : Img Nat :=
  ⟨im.width, im.height, fun x y => lum (im.pixel x y)⟩

/-- Model of PIL `convert('RGB')`: drop alpha (set it opaque). -/
def convertRGB (im : Img RGBA) : Img RGBA :=
  ⟨im.width, im.height, fun x y =>
    let p := im.pixel x y
    ⟨p.r, p.g, p.b, 255⟩⟩

/-! ## Configuration (the module-level tunables of the script) -/

/-- `LAYOUT`: `'auto' | 'row' | 'col' | (rows, cols)`. -/
inductive LayoutMode
  | auto
  | row
  | col
  | explicitGrid (rows cols : Nat)
deriving DecidableEq, Repr

/-- The module-level options `PADDING_PX`, `TILE_W`, `TILE_H`, `FORCE_POW2`,
`LAYOUT` of the script (the resampling filter and name options do not affect
the embedded semantics). -/
structure Config where
  padding : Nat
  tile_w : Option Nat
  tile_h : Option Nat
  force_pow2 : Bool
  layout : LayoutMode
deriving DecidableEq, Repr

/-! ## `_pow2`, `_choose_layout` -/

/-- The loop of `_pow2`: `p = 1; while p < n: p <<= 1; return p`, written
with structural fuel.  Starting from `p = 1`, the value of `p` after `k`
iterations is `2^k`, and `2^n ≥ n`, so fuel `n` is enough for the loop to
reach its exit condition: with that fuel the function agrees with the
unbounded Python loop (`pow2Go_spec` below proves the loop's
characterisation under exactly this fuel bound). -/
def pow2Go (n : Nat) : Nat → Nat → Nat
  | 0, p => p
  | fuel + 1, p => if p < n then pow2Go n fuel (2 * p) else p

def pow2 (n : Nat) : Nat := pow2Go n n 1

/-- `math.ceil(math.sqrt(n))` for a natural `n` (the script's slot counts are
small enough that the float computation is exact). -/
def ceilSqrt (n : Nat) : Nat :=
  if Nat.sqrt n * Nat.sqrt n = n then Nat.sqrt n else Nat.sqrt n + 1

/-- `math.ceil(n / c)` for naturals. -/
def ceilDivN (n c : Nat) : Nat := (n + c - 1) / c

/-- `_choose_layout(n)`, returning `(rows, cols)`. -/
def chooseLayout (mode : LayoutMode) (n : Nat) : Nat × Nat :=
  match mode with
  | .explicitGrid r c => (max 1 r, max 1 c)
  | .row => (1, n)
  | .col => (n, 1)
  | .auto =>
      let cols := ceilSqrt n
      (ceilDivN n cols, cols)

/-! ## Python `dict` with integer keys (last assignment wins) -/

def dictGet {β : Type} : List (Nat × β) → Nat → Option β
  | [], _ => none
  | (k, v) :: t, k' =>
      match dictGet t k' with
      | some w => some w
      | none => if k = k' then some v else none

/-! ## Slot images and the atlas plan -/

/-- One entry of `slot_images` built in `main`: the per-slot resolved channel
images.  A `some` image models a path that exists on disk (`_image_to_path`
succeeded); `none` models Python `None`. -/
structure SlotImages where
  slot_index : Nat
  base_path : Option (Img RGBA)
  normal_path : Option (Img RGBA)
  roughness_path : Option (Img RGBA)
  metalness_path : Option (Img RGBA)

instance : Inhabited SlotImages := ⟨⟨0, none, none, none, none⟩⟩

structure RectPx where
  x0 : Nat
  y0 : Nat
  x1 : Nat
  y1 : Nat
deriving DecidableEq, Repr, Inhabited

structure RectUV where
  u0 : ℚ
  v0 : ℚ
  u1 : ℚ
  v1 : ℚ
deriving DecidableEq, Repr, Inhabited

/-- `u0 = x0/W; u1 = x1/W; v0 = 1 - y1/H; v1 = 1 - y0/H` from `_build_atlases`. -/
def uvOfPx (W H : Nat) (r : RectPx) : RectUV :=
  ⟨(r.x0 : ℚ) / (W : ℚ), 1 - (r.y1 : ℚ) / (H : ℚ),
   (r.x1 : ℚ) / (W : ℚ), 1 - (r.y0 : ℚ) / (H : ℚ)⟩

/-- Pixel rectangle of the `k`-th placed tile: the placement loop walks the
grid row-major with `x0 = P + c*(tw+P)`, `y0 = P + r*(th+P)`, where the
`k`-th placement lands in row `k / cols`, column `k % cols`. -/
def pxRectAt (P tw th cols k : Nat) : RectPx :=
  ⟨P + (k % cols) * (tw + P),
   P + (k / cols) * (th + P),
   P + (k % cols) * (tw + P) + tw,
   P + (k / cols) * (th + P) + th⟩

/-- The layout data produced by `_build_atlases` (canvas size, grid, tile
size, and both rectangle sets of the manifest). -/
structure Plan where
  padding : Nat
  tw : Nat
  th : Nat
  rows : Nat
  cols : Nat
  W : Nat
  H : Nat
  rects_px : List (Nat × RectPx)
  rects_uv : List (Nat × RectUV)
deriving DecidableEq, Repr, Inhabited

/-- The size probe at the top of `_build_atlases`:
`for s in slot_images: with Image.open(s['base_path']) as im: sizes.append(im.size)`.
`Image.open(None)` raises, hence the error case when a slot has no base-color
path. -/
def probeSizes : List SlotImages → Except String (List (Nat × Nat))
  | [] => .ok []
  | s :: t =>
      match s.base_path with
      | none => .error "Image.open(None): slot has no base color path"
      | some im => (probeSizes t).map (fun rest => (im.width, im.height) :: rest)

/-- The pure remainder of the layout computation of `_build_atlases`, given
the maximal source width/height `mw`/`mh` from the size probe. -/
def mkPlan (cfg : Config) (slots : List SlotImages) (mw mh : Nat) : Plan :=
  let tw := match cfg.tile_w with
    | some t => if t = 0 then mw else t
    | none => mw
  let th := match cfg.tile_h with
    | some t => if t = 0 then mh else t
    | none => mh
  let rows := (chooseLayout cfg.layout slots.length).1
  let cols := (chooseLayout cfg.layout slots.length).2
  let W0 := cols * tw + (cols + 1) * cfg.padding
  let H0 := rows * th + (rows + 1) * cfg.padding
  let W := if cfg.force_pow2 then pow2 W0 else W0
  let H := if cfg.force_pow2 then pow2 H0 else H0
  let placed := min (rows * cols) slots.length
  let rects_px := (List.range placed).map (fun k =>
    ((slots.getD k default).slot_index, pxRectAt cfg.padding tw th cols k))
  { padding := cfg.padding, tw := tw, th := th, rows := rows, cols := cols,
    W := W, H := H,
    rects_px := rects_px,
    rects_uv := rects_px.map (fun p => (p.1, uvOfPx W H p.2)) }

/-- The layout part of `_build_atlases`: size probe (which can raise), `max`
over the probed sizes (which raises on an empty sequence), then the pure plan
computation. -/
def buildPlan (cfg : Config) (slots : List SlotImages) : Except String Plan :=
  match probeSizes slots with
  | .error e => .error e
  | .ok [] => .error "max() arg is an empty sequence"
  | .ok (sz :: szs) =>
      .ok (mkPlan cfg slots
        (szs.foldl (fun a p => max a p.1) sz.1)
        (szs.foldl (fun a p => max a p.2) sz.2))

/-! ## The compositor (`place` and the four canvases of `_build_atlases`) -/

/-- Model of `canvas.paste(im, (x, y))` (no mask): overwrite the destination
rectangle. -/
def pasteOpaque {α : Type} (canvas tile : Img α) (x y : Nat) : Img α :=
  ⟨canvas.width, canvas.height, fun px py =>
    if x ≤ px ∧ px < x + tile.width ∧ y ≤ py ∧ py < y + tile.height then
      tile.pixel (px - x) (py - y)
    else canvas.pixel px py⟩

/-- Model of `canvas.paste(im, (x, y), im)` with an RGBA mask: per band,
blend destination and source by the source alpha. -/
def pasteMasked (canvas tile : Img RGBA) (x y : Nat) : Img RGBA :=
  ⟨canvas.width, canvas.height, fun px py =>
    if x ≤ px ∧ px < x + tile.width ∧ y ≤ py ∧ py < y + tile.height then
      let s := tile.pixel (px - x) (py - y)
      let d := canvas.pixel px py
      ⟨(d.r * (255 - s.a) + s.r * s.a) / 255,
       (d.g * (255 - s.a) + s.g * s.a) / 255,
       (d.b * (255 - s.a) + s.b * s.a) / 255,
       (d.a * (255 - s.a) + s.a * s.a) / 255⟩
    else canvas.pixel px py⟩

/-- The tile built by `place` for the base-color canvas: the source converted
to RGB and resized, or, for a missing path, `Image.new('RGB', (tw, th), (0,0,0))`
resized. -/
def tileRGB (src : Option (Img RGBA)) (tw th : Nat) : Img RGBA :=
  match src with
  | some s => resizeTo (convertRGB s) tw th
  | none => resizeTo (imgConst RGBA tw th ⟨0, 0, 0, 255⟩) tw th

/-- The tile built by `place` for the normal canvas (`is_normal=True`): the
source converted to RGBA and resized, or, for a missing path,
`Image.new('RGBA', (tw, th), (128, 128, 255, 255))` resized. -/
def tileRGBA (src : Option (Img RGBA)) (tw th : Nat) : Img RGBA :=
  match src with
  | some s => resizeTo s tw th
  | none => resizeTo (imgConst RGBA tw th ⟨128, 128, 255, 255⟩) tw th

/-- The tile built by `place` for a grayscale canvas (`is_grayscale=True`,
used for BOTH roughness and metalness): the source converted to `'L'` and
resized, or, for a missing path, `Image.new('L', (tw, th), 128)` resized. -/
def tileGray (src : Option (Img RGBA)) (tw th : Nat) : Img Nat :=
  match src with
  | some s => resizeTo (convertL s) tw th
  | none => resizeTo (imgConst Nat tw th 128) tw th

/-- The placement loop of `_build_atlases`, restricted to one canvas.  The
`k`-th placed slot is `slot_images[k]` (the loop breaks once `idx` reaches
`len(slot_images)`, so exactly `min (rows*cols) n` slots are placed), at the
pixel position recorded in `pxRectAt`. -/
def compositeBase (plan : Plan) (slots : List SlotImages) : Img RGBA :=
  (List.range (min (plan.rows * plan.cols) slots.length)).foldl
    (fun cv k =>
      let r := pxRectAt plan.padding plan.tw plan.th plan.cols k
      pasteOpaque cv (tileRGB (slots.getD k default).base_path plan.tw plan.th) r.x0 r.y0)
    (imgConst RGBA plan.W plan.H ⟨20, 20, 20, 255⟩)

def compositeNorm (plan : Plan) (slots : List SlotImages) : Img RGBA :=
  (List.range (min (plan.rows * plan.cols) slots.length)).foldl
    (fun cv k =>
      let r := pxRectAt plan.padding plan.tw plan.th plan.cols k
      pasteMasked cv (tileRGBA (slots.getD k default).normal_path plan.tw plan.th) r.x0 r.y0)
    (imgConst RGBA plan.W plan.H ⟨20, 20, 20, 255⟩)

def compositeRough (plan : Plan) (slots : List SlotImages) : Img Nat :=
  (List.range (min (plan.rows * plan.cols) slots.length)).foldl
    (fun cv k =>
      let r := pxRectAt plan.padding plan.tw plan.th plan.cols k
      pasteOpaque cv (tileGray (slots.getD k default).roughness_path plan.tw plan.th) r.x0 r.y0)
    (imgConst Nat plan.W plan.H 128)

def compositeMetal (plan : Plan) (slots : List SlotImages) : Img Nat :=
  (List.range (min (plan.rows * plan.cols) slots.length)).foldl
    (fun cv k =>
      let r := pxRectAt plan.padding plan.tw plan.th plan.cols k
      pasteOpaque cv (tileGray (slots.getD k default).metalness_path plan.tw plan.th) r.x0 r.y0)
    (imgConst Nat plan.W plan.H 0)

/-- `_build_atlases` end to end: the fallible layout phase followed by the
four canvases. -/
def buildAtlases (cfg : Config) (slots : List SlotImages) :
    Except String (Plan × Img RGBA × Img RGBA × Img Nat × Img Nat) :=
  match buildPlan cfg slots with
  | .error e => .error e
  | .ok plan =>
      .ok (plan, compositeBase plan slots, compositeNorm plan slots,
           compositeRough plan slots, compositeMetal plan slots)

/-! ## Shader node graph (model of the Blender node tree read by the script) -/

inductive NodeType
  | BSDF_PRINCIPLED
  | TEX_IMAGE
  | NORMAL_MAP
  | UVMAP
  | OTHER
deriving DecidableEq, Repr

/-- A Blender `Image` datablock as the script reads it: a name, a colorspace
setting, and (through `_image_to_path`) its decoded content. -/
structure NGImage where
  name : String
  colorspace : String
  content : Img RGBA

/-- A shader node.  `inputs` maps a socket name to `some j` when the socket
is linked with `links[0].from_node` being node `j`, and to `none` when the
socket exists but is unlinked (an absent name models an absent socket).
`uv_map` is the UV Map node's setting, with Blender's empty string modelled
as `none` (the script collapses it with `or None` anyway). -/
structure Node where
  ntype : NodeType
  name : String
  image : Option NGImage
  uv_map : Option String
  inputs : List (String × Option Nat)

instance : Inhabited Node := ⟨⟨.OTHER, "", none, none, []⟩⟩

structure NodeTree where
  nodes : List Node

structure Material where
  name : String
  use_nodes : Bool
  node_tree : Option NodeTree

/-! substring test on characters, for the lowercase name heuristics -/

def chStarts : List Char → List Char → Bool
  | [], _ => true
  | _ :: _, [] => false
  | a :: as, b :: bs => a == b && chStarts as bs

def chSub (nd hay : List Char) : Bool :=
  match hay with
  | [] => chStarts nd []
  | _ :: t => chStarts nd hay || chSub nd t

/-- `nd in hay` on Python strings. -/
def strHas (hay nd : String) : Bool := chSub nd.toList hay.toList

/-- `hay.startswith(nd)`. -/
def strStarts (hay nd : String) : Bool := chStarts nd.toList hay.toList

/-- ASCII lowercase of a character (the script's `.lower()` calls only feed
ASCII keyword matching, for which Python `str.lower` agrees with ASCII
lowercasing). -/
def lowerChar (c : Char) : Char :=
  if 65 ≤ c.toNat ∧ c.toNat ≤ 90 then Char.ofNat (c.toNat + 32) else c

def lowerStr (s : String) : String := ⟨s.toList.map lowerChar⟩

/-- `_find_principled`: first node of type `BSDF_PRINCIPLED`. -/
def findPrincipled (nt : NodeTree) : Option Nat :=
  nt.nodes.findIdx? (fun n => n.ntype = .BSDF_PRINCIPLED)

/-- `_find_image_input_socket_link`: the node linked into the named input
socket of `dest`, if it is a `TEX_IMAGE` node. -/
def findImageInputSocketLink (nt : NodeTree) (destIdx : Nat) (sock : String) : Option Nat :=
  match ((nt.nodes.getD destIdx default).inputs).lookup sock with
  | some (some j) =>
      if (nt.nodes.getD j default).ntype = .TEX_IMAGE then some j else none
  | _ => none

/-- First `TEX_IMAGE` node whose lowercased name contains one of the
keywords. -/
def findTexByKeyword (nt : NodeTree) (kws : List String) : Option Nat :=
  nt.nodes.findIdx? (fun n =>
    decide (n.ntype = .TEX_IMAGE) && kws.any (fun k => strHas (lowerStr n.name) k))

/-- `_find_basecolor_image_node`: direct `'Base Color'` link, else name
heuristic over `('base','albedo','diff','color')`, else any `TEX_IMAGE`
node. -/
def findBasecolorImageNode (nt : NodeTree) (principled : Nat) : Option Nat :=
  match findImageInputSocketLink nt principled "Base Color" with
  | some n => some n
  | none =>
      match findTexByKeyword nt ["base", "albedo", "diff", "color"] with
      | some n => some n
      | none => nt.nodes.findIdx? (fun n => n.ntype = .TEX_IMAGE)

/-- `_find_normal_image_node`: `Normal` input via a `NORMAL_MAP` node's
`Color` input, else a direct `TEX_IMAGE` on `Normal`, else the first
`TEX_IMAGE` whose image colorspace name lowercased starts with `'non-'`. -/
def findNormalImageNode (nt : NodeTree) (principled : Nat) : Option Nat :=
  let viaMap : Option Nat :=
    match ((nt.nodes.getD principled default).inputs).lookup "Normal" with
    | some (some j) =>
        if (nt.nodes.getD j default).ntype = .NORMAL_MAP then
          match ((nt.nodes.getD j default).inputs).lookup "Color" with
          | some (some i) =>
              if (nt.nodes.getD i default).ntype = .TEX_IMAGE then some i else none
          | _ => none
        else none
    | _ => none
  match viaMap with
  | some n => some n
  | none =>
      match findImageInputSocketLink nt principled "Normal" with
      | some n => some n
      | none =>
          nt.nodes.findIdx? (fun n =>
            decide (n.ntype = .TEX_IMAGE) &&
              match n.image with
              | some img => strStarts (lowerStr img.colorspace) "non-"
              | none => false)

/-- `_find_roughness_image_node`: direct `'Roughness'` link, else name
heuristic over `('rough','glossy','gloss')`. -/
def findRoughnessImageNode (nt : NodeTree) (principled : Nat) : Option Nat :=
  match findImageInputSocketLink nt principled "Roughness" with
  | some n => some n
  | none => findTexByKeyword nt ["rough", "glossy", "gloss"]

/-- `_find_metalness_image_node`: direct `'Metallic'` link, else name
heuristic over `('metal','metallic','metalness')`. -/
def findMetalnessImageNode (nt : NodeTree) (principled : Nat) : Option Nat :=
  match findImageInputSocketLink nt principled "Metallic" with
  | some n => some n
  | none => findTexByKeyword nt ["metal", "metallic", "metalness"]

/-- The loop of `_upstream_uvmap_name`: LIFO stack of node indices with a
visited set, following each node's `Vector` input upstream.  Each processed
unvisited node pushes at most one successor, so the number of iterations is
bounded by `1 + |nodes|`; the fuel `2*|nodes| + 2` therefore never runs out
and the function agrees with the unbounded Python loop. -/
def upstreamUVStep (nt : NodeTree) : Nat → List Nat → List Nat → Option String
  | 0, _, _ => none
  | _ + 1, [], _ => none
  | fuel + 1, i :: rest, visited =>
      if i ∈ visited then upstreamUVStep nt fuel rest visited
      else
        match ((nt.nodes.getD i default).inputs).lookup "Vector" with
        | some (some j) =>
            if (nt.nodes.getD j default).ntype = .UVMAP then
              (nt.nodes.getD j default).uv_map
            else upstreamUVStep nt fuel (j :: rest) (i :: visited)
        | _ => upstreamUVStep nt fuel rest (i :: visited)

/-- `_upstream_uvmap_name(nt, tex_image_node)` (`None` node short-circuits). -/
def upstreamUVMapName (nt : NodeTree) (texIdx : Option Nat) : Option String :=
  match texIdx with
  | none => none
  | some i => upstreamUVStep nt (2 * nt.nodes.length + 2) [i] []

/-- `_image_to_path`: models the successful materialization of a non-`None`
image to an existing file (the decoded content stands for the file). -/
def imageToPath (img : Option NGImage) : Option (Img RGBA) :=
  img.map (fun i => i.content)

/-! ## The per-slot resolution loop of `main` -/

/-- The tail of the resolution loop body: `if not base_path and not
normal_path and not roughness_path and not metalness_path: continue`, else
append the `slot_images` entry and record the slot's UV-map name. -/
def mkResolved (idx : Nat) (b n r m : Option (Img RGBA)) (uv : Option String) :
    Option (SlotImages × Option String) :=
  if b.isNone && n.isNone && r.isNone && m.isNone then none
  else some (⟨idx, b, n, r, m⟩, uv)

/-- The body of the `for idx, mat in enumerate(obj.data.materials)` loop:
`none` when the slot is skipped (`continue`), otherwise the `slot_images`
entry together with the slot's resolved source UV-map name. -/
def resolveSlot (idx : Nat) (m : Option Material) : Option (SlotImages × Option String) :=
  match m with
  | none => none
  | some mat =>
      if mat.use_nodes = false then none
      else
        match mat.node_tree with
        | none => none
        | some nt =>
            match findPrincipled nt with
            | none => none
            | some bsdf =>
                let baseNode := findBasecolorImageNode nt bsdf
                let normalNode := findNormalImageNode nt bsdf
                let roughNode := findRoughnessImageNode nt bsdf
                let metalNode := findMetalnessImageNode nt bsdf
                let basePath := imageToPath (baseNode.bind (fun i => (nt.nodes.getD i default).image))
                let normalPath := imageToPath (normalNode.bind (fun i => (nt.nodes.getD i default).image))
                let roughPath := imageToPath (roughNode.bind (fun i => (nt.nodes.getD i default).image))
                let metalPath := imageToPath (metalNode.bind (fun i => (nt.nodes.getD i default).image))
                mkResolved idx basePath normalPath roughPath metalPath
                  ((upstreamUVMapName nt baseNode).orElse (fun _ =>
                    (upstreamUVMapName nt normalNode).orElse (fun _ =>
                      (upstreamUVMapName nt roughNode).orElse (fun _ =>
                        upstreamUVMapName nt metalNode))))

def resolveSlotsAux (idx : Nat) : List (Option Material) →
    List SlotImages × List (Nat × Option String)
  | [] => ([], [])
  | m :: t =>
      let rest := resolveSlotsAux (idx + 1) t
      match resolveSlot idx m with
      | none => rest
      | some (s, uv) => (s :: rest.1, (idx, uv) :: rest.2)

/-- The resolution loop of `main`: builds `slot_images` and
`slot_to_src_uv`. -/
def resolveSlots (mats : List (Option Material)) :
    List SlotImages × List (Nat × Option String) :=
  resolveSlotsAux 0 mats

/-! ## Mesh and UV layers (model of the Blender mesh view)

Host semantics modelled from the Blender API the script calls:
`active_render` of a UV layer is backed by a single per-mesh index, so
setting it on one layer is exclusive (at most one render-active layer);
`uv_layers.active` is likewise an index; `uv_layers.new(name=...)` appends a
layer whose data is initialized by copying the currently active layer
(`do_init` defaults to `True`), or with a default map when there is none. -/

structure UVLayer where
  name : String
  data : List (ℚ × ℚ)
deriving DecidableEq, Repr

instance : Inhabited UVLayer := ⟨⟨"", []⟩⟩

structure Polygon where
  loop_start : Nat
  loop_total : Nat
  material_index : Nat
deriving DecidableEq, Repr, Inhabited

structure Mesh where
  uv_layers : List UVLayer
  active_index : Nat
  active_render_index : Nat
  polygons : List Polygon
  loopCount : Nat
deriving DecidableEq, Repr

/-- `data[li].uv` with Python's read modelled totally (the meshes in the
theorems keep all loop indices in range). -/
def uvGet (l : List (ℚ × ℚ)) (i : Nat) : ℚ × ℚ := l.getD i (0, 0)

/-- `me.uv_layers.get(name)`: first layer with the name. -/
def firstIdxByName : List UVLayer → String → Option Nat
  | [], _ => none
  | l :: ls, n =>
      if l.name = n then some 0 else (firstIdxByName ls n).map (fun i => i + 1)

/-- Lookup through `uvdata_by_name = {uv.name: uv.data for uv in me.uv_layers}`:
a dict comprehension keeps the LAST layer for a repeated name. -/
def lastIdxByName : List UVLayer → String → Option Nat
  | [], _ => none
  | l :: ls, n =>
      match lastIdxByName ls n with
      | some i => some (i + 1)
      | none => if l.name = n then some 0 else none

/-- Initial data of a freshly created UV layer (`uv_layers.new` with the
default `do_init=True`): a copy of the active layer, else a default map. -/
def dstInitData (mesh : Mesh) : List (ℚ × ℚ) :=
  match mesh.uv_layers[mesh.active_index]? with
  | some l => l.data
  | none => List.replicate mesh.loopCount (0, 0)

/-- `me.uv_layers.get(dst_uv_name) or me.uv_layers.new(name=dst_uv_name)`:
the layer list after get-or-create, with the destination layer's index. -/
def setupLayers (mesh : Mesh) (dstName : String) : List UVLayer × Nat :=
  match firstIdxByName mesh.uv_layers dstName with
  | some i => (mesh.uv_layers, i)
  | none => (mesh.uv_layers ++ [⟨dstName, dstInitData mesh⟩], mesh.uv_layers.length)

/-- The state read by the remap loop: the layer list after destination
creation (`uvdata_by_name` is built from it), the destination index, and the
active / render-active indices (both set to the destination before the
loop), plus the loop's inputs. -/
structure RemapCtx where
  layers : List UVLayer
  dstIdx : Nat
  ari : Nat
  ai : Nat
  slotToSrc : List (Nat × Option String)
  rects : List (Nat × RectUV)
  cache : List Nat

/-- `next((uv for uv in me.uv_layers if uv.active_render), me.uv_layers.active)`:
with the exclusive render-active index there is at most one render-active
layer, namely `ari` when it is in range. -/
def fallbackIdx (ctx : RemapCtx) : Nat :=
  if ctx.ari < ctx.layers.length then ctx.ari else ctx.ai

/-- Source layer selection for a slot:
`src_name = slot_to_src_uv.get(slot_idx)`;
`src_data = uvdata_by_name.get(src_name) if src_name in uvdata_by_name else None`;
`if not src_data:` (absent name or empty data) fall back. -/
def chooseSrcIdx (ctx : RemapCtx) (slot : Nat) : Nat :=
  match (dictGet ctx.slotToSrc slot).join with
  | none => fallbackIdx ctx
  | some nm =>
      match lastIdxByName ctx.layers nm with
      | none => fallbackIdx ctx
      | some i =>
          if ((ctx.layers.getD i default).data).isEmpty then fallbackIdx ctx else i

/-- One loop body: `dst.data[li].uv = src_data[li].uv` in the pass-through
branch, `dst.data[li].uv = (u0 + su*du, v0 + sv*dv)` in the rect branch.
Reads from the destination's own data go through the current state `d`
(the Python dict holds live references). -/
def writeLoop (ctx : RemapCtx) (srcIdx : Nat) (rect : Option RectUV)
    (d : List (ℚ × ℚ)) (li : Nat) : List (ℚ × ℚ) :=
  let sv : ℚ × ℚ :=
    if srcIdx = ctx.dstIdx then uvGet d li
    else uvGet (ctx.layers.getD srcIdx default).data li
  match rect with
  | none => d.set li sv
  | some r => d.set li (r.u0 + sv.1 * (r.u1 - r.u0), r.v0 + sv.2 * (r.v1 - r.v0))

/-- `range(poly.loop_start, poly.loop_start + poly.loop_total)`. -/
def polyRange (p : Polygon) : List Nat :=
  (List.range p.loop_total).map (fun k => p.loop_start + k)

/-- One polygon of the remap loop, acting on the destination layer's data. -/
def stepPoly (ctx : RemapCtx) (d : List (ℚ × ℚ)) (pp : Nat × Polygon) : List (ℚ × ℚ) :=
  let slot := ctx.cache.getD pp.1 0
  (polyRange pp.2).foldl
    (writeLoop ctx (chooseSrcIdx ctx slot) (dictGet ctx.rects slot)) d

/-- Replace the data of layer `i`. -/
def setLayerData (ls : List UVLayer) (i : Nat) (d : List (ℚ × ℚ)) : List UVLayer :=
  match ls[i]? with
  | some l => ls.set i ⟨l.name, d⟩
  | none => ls

/-- `_remap_uvs_to_atlas_with_slot_uv`: get-or-create the destination layer,
mark it active and render-active, then rewrite its loop UVs polygon by
polygon. -/
def remapUVs (mesh : Mesh) (slotToSrc : List (Nat × Option String)) (dstName : String)
    (rects : List (Nat × RectUV)) (cache : List Nat) : Mesh :=
  let ls := (setupLayers mesh dstName).1
  let di := (setupLayers mesh dstName).2
  let ctx : RemapCtx := ⟨ls, di, di, di, slotToSrc, rects, cache⟩
  let d0 := (ls.getD di default).data
  let dF := (mesh.polygons.enum).foldl (stepPoly ctx) d0
  { uv_layers := setLayerData ls di dF
    active_index := di
    active_render_index := di
    polygons := mesh.polygons
    loopCount := mesh.loopCount }

/-! # Theorems

## `pow2`: the loop computes the least power of two that is ≥ its input -/

theorem pow2Go_spec (n : Nat) : ∀ fuel i, n ≤ 2 ^ (i + fuel) →
    ∃ m, i ≤ m ∧ pow2Go n fuel (2 ^ i) = 2 ^ m ∧ n ≤ 2 ^ m ∧
      ∀ j, i ≤ j → n ≤ 2 ^ j → 2 ^ m ≤ 2 ^ j := by
  intro fuel
  induction fuel with
  | zero =>
      intro i hi
      exact ⟨i, le_refl i, rfl, by simpa using hi, fun j hij _ =>
        Nat.pow_le_pow_right (by omega) hij⟩
  | succ fuel ih =>
      intro i hi
      by_cases hlt : 2 ^ i < n
      · have hrec : n ≤ 2 ^ (i + 1 + fuel) := by
          have : i + (fuel + 1) = i + 1 + fuel := by omega
          rwa [this] at hi
        obtain ⟨m, him, heq, hnm, hmin⟩ := ih (i + 1) hrec
        refine ⟨m, by omega, ?_, hnm, ?_⟩
        · show pow2Go n (fuel + 1) (2 ^ i) = 2 ^ m
          rw [pow2Go, if_pos hlt]
          have h2 : 2 * 2 ^ i = 2 ^ (i + 1) := by ring
          rw [h2]
          exact heq
        · intro j hij hnj
          have hij1 : i + 1 ≤ j := by
            rcases Nat.lt_or_ge i j with h | h
            · omega
            · exfalso
              have : j = i := by omega
              subst this
              omega
          exact hmin j hij1 hnj
      · refine ⟨i, le_refl i, ?_, by omega, fun j hij _ =>
          Nat.pow_le_pow_right (by omega) hij⟩
        show pow2Go n (fuel + 1) (2 ^ i) = 2 ^ i
        rw [pow2Go, if_neg hlt]

theorem pow2_spec (n : Nat) :
    ∃ m, pow2 n = 2 ^ m ∧ n ≤ 2 ^ m ∧ ∀ j, n ≤ 2 ^ j → 2 ^ m ≤ 2 ^ j := by
  have h : n ≤ 2 ^ (0 + n) := by
    simpa using (Nat.lt_two_pow n).le
  obtain ⟨m, _, heq, hnm, hmin⟩ := pow2Go_spec n n 0 h
  refine ⟨m, ?_, hnm, fun j hj => hmin j (Nat.zero_le j) hj⟩
  simpa [pow2] using heq

theorem pow2_ge (n : Nat) : n ≤ pow2 n := by
  obtain ⟨m, heq, hnm, _⟩ := pow2_spec n
  omega

theorem pow2_min (n j : Nat) (h : n ≤ 2 ^ j) : pow2 n ≤ 2 ^ j := by
  obtain ⟨m, heq, _, hmin⟩ := pow2_spec n
  rw [heq]
  exact hmin j h

theorem pow2_eq_of_pow (n : Nat) (h : ∃ k, n = 2 ^ k) : pow2 n = n := by
  obtain ⟨k, hk⟩ := h
  have h1 := pow2_ge n
  have h2 := pow2_min n k (by omega)
  omega

/-! ## Inversion of `buildPlan` -/

theorem buildPlan_ok (cfg : Config) (slots : List SlotImages) (plan : Plan)
    (hok : buildPlan cfg slots = Except.ok plan) :
    ∃ mw mh, plan = mkPlan cfg slots mw mh := by
  unfold buildPlan at hok
  rcases h1 : probeSizes slots with e | szs
  · rw [h1] at hok
    exact absurd hok (by simp)
  · rw [h1] at hok
    cases szs with
    | nil => exact absurd hok (by simp)
    | cons sz t =>
        refine ⟨t.foldl (fun a p => max a p.1) sz.1,
                t.foldl (fun a p => max a p.2) sz.2, ?_⟩
        simpa using hok.symm

deriving instance DecidableEq for Except

/-! ## C7: canvas size formula and power-of-two rounding -/

/-- **C7.** The unrounded canvas size of a successful atlas build equals
`cols*tile_w + (cols+1)*padding` by `rows*tile_h + (rows+1)*padding`, and when
power-of-two forcing is enabled each axis is independently the smallest power
of two ≥ the unrounded value, the rounding being a no-op on a value that is
already a power of two. -/
theorem claim_C7_canvas_size (cfg : Config) (slots : List SlotImages) (plan : Plan)
    (hok : buildPlan cfg slots = Except.ok plan) :
    (cfg.force_pow2 = false →
      plan.W = plan.cols * plan.tw + (plan.cols + 1) * plan.padding ∧
      plan.H = plan.rows * plan.th + (plan.rows + 1) * plan.padding) ∧
    (cfg.force_pow2 = true →
      plan.W = pow2 (plan.cols * plan.tw + (plan.cols + 1) * plan.padding) ∧
      plan.H = pow2 (plan.rows * plan.th + (plan.rows + 1) * plan.padding) ∧
      (∃ k, plan.W = 2 ^ k) ∧ (∃ k, plan.H = 2 ^ k) ∧
      plan.cols * plan.tw + (plan.cols + 1) * plan.padding ≤ plan.W ∧
      plan.rows * plan.th + (plan.rows + 1) * plan.padding ≤ plan.H ∧
      (∀ m, plan.cols * plan.tw + (plan.cols + 1) * plan.padding ≤ 2 ^ m → plan.W ≤ 2 ^ m) ∧
      (∀ m, plan.rows * plan.th + (plan.rows + 1) * plan.padding ≤ 2 ^ m → plan.H ≤ 2 ^ m) ∧
      ((∃ k, plan.cols * plan.tw + (plan.cols + 1) * plan.padding = 2 ^ k) →
        plan.W = plan.cols * plan.tw + (plan.cols + 1) * plan.padding) ∧
      ((∃ k, plan.rows * plan.th + (plan.rows + 1) * plan.padding = 2 ^ k) →
        plan.H = plan.rows * plan.th + (plan.rows + 1) * plan.padding)) := by
  obtain ⟨mw, mh, hp⟩ := buildPlan_ok cfg slots plan hok
  subst hp
  have hW : (mkPlan cfg slots mw mh).W
      = (if cfg.force_pow2 then
           pow2 ((mkPlan cfg slots mw mh).cols * (mkPlan cfg slots mw mh).tw +
             ((mkPlan cfg slots mw mh).cols + 1) * (mkPlan cfg slots mw mh).padding)
         else (mkPlan cfg slots mw mh).cols * (mkPlan cfg slots mw mh).tw +
             ((mkPlan cfg slots mw mh).cols + 1) * (mkPlan cfg slots mw mh).padding) := rfl
  have hH : (mkPlan cfg slots mw mh).H
      = (if cfg.force_pow2 then
           pow2 ((mkPlan cfg slots mw mh).rows * (mkPlan cfg slots mw mh).th +
             ((mkPlan cfg slots mw mh).rows + 1) * (mkPlan cfg slots mw mh).padding)
         else (mkPlan cfg slots mw mh).rows * (mkPlan cfg slots mw mh).th +
             ((mkPlan cfg slots mw mh).rows + 1) * (mkPlan cfg slots mw mh).padding) := rfl
  constructor
  · intro hf
    rw [hf] at hW hH
    simp only [Bool.false_eq_true, if_false] at hW hH
    exact ⟨hW, hH⟩
  · intro hf
    rw [hf] at hW hH
    simp only [if_true] at hW hH
    refine ⟨hW, hH, ⟨?_, ?_, ?_, ?_, ?_, ?_, ?_, ?_⟩⟩
    · obtain ⟨m, heq, -, -⟩ := pow2_spec ((mkPlan cfg slots mw mh).cols * (mkPlan cfg slots mw mh).tw +
        ((mkPlan cfg slots mw mh).cols + 1) * (mkPlan cfg slots mw mh).padding)
      exact ⟨m, by rw [hW, heq]⟩
    · obtain ⟨m, heq, -, -⟩ := pow2_spec ((mkPlan cfg slots mw mh).rows * (mkPlan cfg slots mw mh).th +
        ((mkPlan cfg slots mw mh).rows + 1) * (mkPlan cfg slots mw mh).padding)
      exact ⟨m, by rw [hH, heq]⟩
    · rw [hW]; exact pow2_ge _
    · rw [hH]; exact pow2_ge _
    · intro m hm; rw [hW]; exact pow2_min _ m hm
    · intro m hm; rw [hH]; exact pow2_min _ m hm
    · intro hp2; rw [hW]; exact pow2_eq_of_pow _ hp2
    · intro hp2; rw [hH]; exact pow2_eq_of_pow _ hp2

def imgC7 : Img RGBA := imgConst RGBA 2 2 ⟨5, 6, 7, 255⟩

def cfgC7w : Config := ⟨1, some 2, some 2, true, LayoutMode.row⟩

def slotC7a : SlotImages := ⟨0, some imgC7, none, none, none⟩

def slotC7b : SlotImages := ⟨1, some imgC7, none, none, none⟩

def planC7w : Plan := (buildPlan cfgC7w [slotC7a, slotC7b]).toOption.getD default

theorem claim_C7_canvas_size_witness :
    buildPlan cfgC7w [slotC7a, slotC7b] = Except.ok planC7w ∧
    planC7w.W = 8 ∧ planC7w.H = 4 ∧ planC7w.rows = 1 ∧ planC7w.cols = 2 ∧
    planC7w.tw = 2 ∧ planC7w.th = 2 ∧ planC7w.padding = 1 ∧
    ((cfgC7w.force_pow2 = false →
      planC7w.W = planC7w.cols * planC7w.tw + (planC7w.cols + 1) * planC7w.padding ∧
      planC7w.H = planC7w.rows * planC7w.th + (planC7w.rows + 1) * planC7w.padding) ∧
    (cfgC7w.force_pow2 = true →
      planC7w.W = pow2 (planC7w.cols * planC7w.tw + (planC7w.cols + 1) * planC7w.padding) ∧
      planC7w.H = pow2 (planC7w.rows * planC7w.th + (planC7w.rows + 1) * planC7w.padding) ∧
      (∃ k, planC7w.W = 2 ^ k) ∧ (∃ k, planC7w.H = 2 ^ k) ∧
      planC7w.cols * planC7w.tw + (planC7w.cols + 1) * planC7w.padding ≤ planC7w.W ∧
      planC7w.rows * planC7w.th + (planC7w.rows + 1) * planC7w.padding ≤ planC7w.H ∧
      (∀ m, planC7w.cols * planC7w.tw + (planC7w.cols + 1) * planC7w.padding ≤ 2 ^ m → planC7w.W ≤ 2 ^ m) ∧
      (∀ m, planC7w.rows * planC7w.th + (planC7w.rows + 1) * planC7w.padding ≤ 2 ^ m → planC7w.H ≤ 2 ^ m) ∧
      ((∃ k, planC7w.cols * planC7w.tw + (planC7w.cols + 1) * planC7w.padding = 2 ^ k) →
        planC7w.W = planC7w.cols * planC7w.tw + (planC7w.cols + 1) * planC7w.padding) ∧
      ((∃ k, planC7w.rows * planC7w.th + (planC7w.rows + 1) * planC7w.padding = 2 ^ k) →
        planC7w.H = planC7w.rows * planC7w.th + (planC7w.rows + 1) * planC7w.padding))) :=
  ⟨by rfl, by rfl, by rfl, by rfl, by rfl, by rfl, by rfl, by rfl,
   claim_C7_canvas_size cfgC7w [slotC7a, slotC7b] planC7w (by rfl)⟩

/-! ## C8: the auto layout -/

theorem ceilSqrt_pos (n : Nat) (h : 1 ≤ n) : 1 ≤ ceilSqrt n := by
  unfold ceilSqrt
  split
  · rename_i hsq
    rcases Nat.eq_zero_or_pos (Nat.sqrt n) with h0 | h1
    · rw [h0] at hsq; omega
    · exact h1
  · omega

theorem ceilSqrt_sq_ge (n : Nat) : n ≤ ceilSqrt n * ceilSqrt n := by
  unfold ceilSqrt
  split
  · omega
  · have h := Nat.lt_succ_sqrt n
    rw [Nat.succ_eq_add_one] at h
    omega

theorem ceilSqrt_pred_sq_lt (n : Nat) (h : 1 ≤ n) :
    (ceilSqrt n - 1) * (ceilSqrt n - 1) < n := by
  unfold ceilSqrt
  split
  · rename_i hsq
    have h1 : 1 ≤ Nat.sqrt n := by
      rcases Nat.eq_zero_or_pos (Nat.sqrt n) with h0 | h1
      · rw [h0] at hsq; omega
      · exact h1
    have h2 : (Nat.sqrt n - 1) * (Nat.sqrt n - 1) < Nat.sqrt n * Nat.sqrt n := by
      have : Nat.sqrt n - 1 < Nat.sqrt n := by omega
      exact Nat.mul_lt_mul_of_lt_of_le this (by omega) (by omega)
    omega
  · rename_i hsq
    have h2 := Nat.sqrt_le n
    simp only [Nat.add_sub_cancel]
    omega

theorem ceilDivN_ge (n c : Nat) (hc : 1 ≤ c) : n ≤ ceilDivN n c * c := by
  unfold ceilDivN
  have h1 := Nat.div_add_mod (n + c - 1) c
  have h2 : (n + c - 1) % c < c := Nat.mod_lt _ (by omega)
  have h3 : (n + c - 1) / c * c = c * ((n + c - 1) / c) := Nat.mul_comm _ _
  omega

theorem ceilDivN_lt (n c : Nat) (hn : 1 ≤ n) (hc : 1 ≤ c) :
    ceilDivN n c * c < n + c := by
  unfold ceilDivN
  have h := Nat.div_mul_le_self (n + c - 1) c
  have h3 : (n + c - 1) / c * c = c * ((n + c - 1) / c) := Nat.mul_comm _ _
  omega

/-- **C8.** Under the default `auto` layout the planner returns
`cols = ceil(sqrt N)` (i.e. the least `c` with `c*c ≥ N`) and
`rows = ceil(N / cols)`, and consequently `rows*cols ≥ N` and
`rows*cols < N + cols`. -/
theorem claim_C8_auto_layout (n : Nat) (h : 1 ≤ n) :
    (chooseLayout LayoutMode.auto n).2 = ceilSqrt n ∧
    n ≤ (chooseLayout LayoutMode.auto n).2 * (chooseLayout LayoutMode.auto n).2 ∧
    ((chooseLayout LayoutMode.auto n).2 - 1) * ((chooseLayout LayoutMode.auto n).2 - 1) < n ∧
    (chooseLayout LayoutMode.auto n).1 = ceilDivN n (chooseLayout LayoutMode.auto n).2 ∧
    n ≤ (chooseLayout LayoutMode.auto n).1 * (chooseLayout LayoutMode.auto n).2 ∧
    (chooseLayout LayoutMode.auto n).1 * (chooseLayout LayoutMode.auto n).2 <
      n + (chooseLayout LayoutMode.auto n).2 := by
  have hc : (chooseLayout LayoutMode.auto n).2 = ceilSqrt n := rfl
  have hr : (chooseLayout LayoutMode.auto n).1 = ceilDivN n (ceilSqrt n) := rfl
  rw [hc, hr]
  have h1 := ceilSqrt_pos n h
  refine ⟨rfl, ceilSqrt_sq_ge n, ceilSqrt_pred_sq_lt n h, rfl, ?_, ?_⟩
  · exact ceilDivN_ge n (ceilSqrt n) h1
  · exact ceilDivN_lt n (ceilSqrt n) h h1

theorem claim_C8_auto_layout_witness :
    1 ≤ 3 ∧
    ((chooseLayout LayoutMode.auto 3).2 = ceilSqrt 3 ∧
    3 ≤ (chooseLayout LayoutMode.auto 3).2 * (chooseLayout LayoutMode.auto 3).2 ∧
    ((chooseLayout LayoutMode.auto 3).2 - 1) * ((chooseLayout LayoutMode.auto 3).2 - 1) < 3 ∧
    (chooseLayout LayoutMode.auto 3).1 = ceilDivN 3 (chooseLayout LayoutMode.auto 3).2 ∧
    3 ≤ (chooseLayout LayoutMode.auto 3).1 * (chooseLayout LayoutMode.auto 3).2 ∧
    (chooseLayout LayoutMode.auto 3).1 * (chooseLayout LayoutMode.auto 3).2 <
      3 + (chooseLayout LayoutMode.auto 3).2) :=
  ⟨by decide, claim_C8_auto_layout 3 (by decide)⟩

/-! ## C2: under-provisioned explicit grid -/

theorem probeSizes_ok_of_base (slots : List SlotImages)
    (hb : ∀ s ∈ slots, s.base_path.isSome) :
    ∃ szs, probeSizes slots = Except.ok szs ∧ szs.length = slots.length := by
  induction slots with
  | nil => exact ⟨[], rfl, rfl⟩
  | cons s t ih =>
      obtain ⟨szs, h1, h2⟩ := ih (fun x hx => hb x (List.mem_cons_of_mem s hx))
      have hs := hb s (List.mem_cons_self s t)
      rcases h3 : s.base_path with _ | im
      · rw [h3] at hs; simp at hs
      · refine ⟨(im.width, im.height) :: szs, ?_, by simp [h2]⟩
        unfold probeSizes
        rw [h3, h1]
        rfl

theorem buildPlan_eq (cfg : Config) (slots : List SlotImages)
    (sz : Nat × Nat) (szs : List (Nat × Nat))
    (hp : probeSizes slots = Except.ok (sz :: szs)) :
    buildPlan cfg slots = Except.ok (mkPlan cfg slots
      (szs.foldl (fun a p => max a p.1) sz.1)
      (szs.foldl (fun a p => max a p.2) sz.2)) := by
  unfold buildPlan
  rw [hp]

theorem mkPlan_rects_px (cfg : Config) (slots : List SlotImages) (mw mh : Nat) :
    (mkPlan cfg slots mw mh).rects_px =
      (List.range (min ((chooseLayout cfg.layout slots.length).1 *
        (chooseLayout cfg.layout slots.length).2) slots.length)).map (fun k =>
        ((slots.getD k default).slot_index,
          pxRectAt cfg.padding (mkPlan cfg slots mw mh).tw (mkPlan cfg slots mw mh).th
            (chooseLayout cfg.layout slots.length).2 k)) := rfl

theorem getD_map_range {α : Type} (m k : Nat) (f : Nat → α) (d : α) (hk : k < m) :
    ((List.range m).map f).getD k d = f k := by
  rw [List.getD_eq_getElem?_getD, List.getElem?_map, List.getElem?_range hk]
  rfl

def cfgC2 : Config := ⟨1, some 2, some 2, false, LayoutMode.explicitGrid 1 1⟩

def imgC2 : Img RGBA := imgConst RGBA 2 2 ⟨9, 9, 9, 255⟩

def slotsC2 : List SlotImages :=
  [⟨0, some imgC2, none, none, none⟩, ⟨1, some imgC2, none, none, none⟩]

/-- **C2, counterexample.**  An explicit `(1,1)` grid with 2 resolved slots
does NOT abort: the build succeeds, places a single slot, and the second slot
simply gets no rectangle (the claim says this configuration raises a fatal
error before compositing). -/
theorem claim_C2_counterexample :
    (buildPlan cfgC2 slotsC2).isOk = true ∧
    ((buildPlan cfgC2 slotsC2).toOption.getD default).rects_px.length = 1 ∧
    (dictGet ((buildPlan cfgC2 slotsC2).toOption.getD default).rects_uv 1).isNone = true ∧
    slotsC2.length = 2 :=
  ⟨rfl, rfl, rfl, rfl⟩

/-- **C2, amended.**  If an explicit grid layout `(r, c)` (with `r, c ≥ 1`)
is configured and `r*c` is at most the number of resolved slots (each with a
usable base-color image), the pipeline does not raise: the build succeeds and
silently places only the first `r*c` slots, in order; the remaining slots are
dropped from the rectangle set. -/
theorem claim_C2_amended (cfg : Config) (slots : List SlotImages) (r c : Nat)
    (hl : cfg.layout = LayoutMode.explicitGrid r c)
    (hr : 1 ≤ r) (hc : 1 ≤ c)
    (hcount : r * c ≤ slots.length)
    (hb : ∀ s ∈ slots, s.base_path.isSome) :
    ∃ plan, buildPlan cfg slots = Except.ok plan ∧
      plan.rows = r ∧ plan.cols = c ∧
      plan.rects_px.length = r * c ∧
      ∀ k, k < r * c →
        (plan.rects_px.getD k default).1 = (slots.getD k default).slot_index := by
  obtain ⟨szs, hp, hlen⟩ := probeSizes_ok_of_base slots hb
  cases szs with
  | nil =>
      exfalso
      have : slots.length = 0 := by simpa using hlen.symm
      nlinarith
  | cons sz t =>
      refine ⟨_, buildPlan_eq cfg slots sz t hp, ?_, ?_, ?_, ?_⟩
      · show (chooseLayout cfg.layout slots.length).1 = r
        rw [hl]
        simp [chooseLayout]
        omega
      · show (chooseLayout cfg.layout slots.length).2 = c
        rw [hl]
        simp [chooseLayout]
        omega
      · have hrows : (chooseLayout cfg.layout slots.length).1 = r := by
          rw [hl]; simp [chooseLayout]; omega
        have hcols : (chooseLayout cfg.layout slots.length).2 = c := by
          rw [hl]; simp [chooseLayout]; omega
        rw [mkPlan_rects_px, List.length_map, List.length_range, hrows, hcols,
          Nat.min_eq_left hcount]
      · intro k hk
        have hrows : (chooseLayout cfg.layout slots.length).1 = r := by
          rw [hl]; simp [chooseLayout]; omega
        have hcols : (chooseLayout cfg.layout slots.length).2 = c := by
          rw [hl]; simp [chooseLayout]; omega
        rw [mkPlan_rects_px, hrows, hcols, Nat.min_eq_left hcount,
          getD_map_range _ _ _ _ hk]

theorem claim_C2_amended_witness :
    (cfgC2.layout = LayoutMode.explicitGrid 1 1 ∧ 1 ≤ 1 ∧ 1 * 1 ≤ slotsC2.length ∧
      (∀ s ∈ slotsC2, s.base_path.isSome)) ∧
    (∃ plan, buildPlan cfgC2 slotsC2 = Except.ok plan ∧
      plan.rows = 1 ∧ plan.cols = 1 ∧
      plan.rects_px.length = 1 * 1 ∧
      ∀ k, k < 1 * 1 →
        (plan.rects_px.getD k default).1 = (slotsC2.getD k default).slot_index) :=
  ⟨⟨rfl, le_refl 1, by decide, by decide⟩,
   claim_C2_amended cfgC2 slotsC2 1 1 rfl (le_refl 1) (le_refl 1) (by decide) (by decide)⟩

/-! ## C3: a slot with an empty base-color channel crashes the size probe -/

def imgRough : NGImage := ⟨"RoughTex", "sRGB", imgConst RGBA 2 2 ⟨50, 50, 50, 255⟩⟩

/-- A `TEX_IMAGE` node with no image assigned (its `name` matches no channel
keyword). -/
def nodeEmptyTex : Node := ⟨.TEX_IMAGE, "Image Texture", none, none, []⟩

def nodeRoughTex : Node := ⟨.TEX_IMAGE, "Image Texture.001", some imgRough, none, [("Vector", none)]⟩

def nodePrincipledC3 : Node :=
  ⟨.BSDF_PRINCIPLED, "Principled BSDF", none, none,
   [("Base Color", none), ("Normal", none), ("Roughness", some 1), ("Metallic", none)]⟩

def ntC3 : NodeTree := ⟨[nodeEmptyTex, nodeRoughTex, nodePrincipledC3]⟩

def matC3 : Material := ⟨"MatC3", true, some ntC3⟩

def cfgC3 : Config := ⟨1, some 2, some 2, false, LayoutMode.auto⟩

/-- **C3 (code bug).**  A material whose graph links a roughness image to the
Principled BSDF but whose first image node carries no image resolves to a
slot with an empty base-color channel and a non-empty roughness channel; the
slot is kept (not skipped), yet `_build_atlases` raises at
`Image.open(s['base_path'])` in the size probe instead of substituting the
default fill and continuing as the claim states. -/
theorem claim_C3_missing_base_raises :
    (resolveSlots [some matC3]).1.length = 1 ∧
    ((resolveSlots [some matC3]).1.getD 0 default).base_path.isNone = true ∧
    ((resolveSlots [some matC3]).1.getD 0 default).roughness_path.isSome = true ∧
    buildPlan cfgC3 (resolveSlots [some matC3]).1 =
      Except.error "Image.open(None): slot has no base color path" :=
  ⟨by rfl, by rfl, by rfl, by rfl⟩

/-! ## C1: the default fill of a missing metalness tile is 128, not 0 -/

def cfgC1 : Config := ⟨1, some 2, some 2, false, LayoutMode.auto⟩

def imgC1 : Img RGBA := imgConst RGBA 2 2 ⟨10, 20, 30, 255⟩

def slotC1 : SlotImages := ⟨0, some imgC1, none, none, none⟩

def planC1 : Plan := (buildPlan cfgC1 [slotC1]).toOption.getD default

/-- **C1 (code bug).**  For a slot that wholly lacks the metalness channel
(and the roughness and normal channels), the compositor fills the slot's
metalness tile with mid-gray 128 — `place` uses the single grayscale default
`Image.new('L', (tw, th), 128)` for roughness AND metalness — although the
claim (and the canvas background the code itself initializes to 0) requires
black.  The roughness tile (128) and normal tile (128,128,255,255) defaults
match the claim; the canvas outside the tile shows the intended 0. -/
theorem claim_C1_metalness_fill :
    (compositeMetal planC1 [slotC1]).pixel 1 1 = 128 ∧
    (compositeMetal planC1 [slotC1]).pixel 2 2 = 128 ∧
    (compositeRough planC1 [slotC1]).pixel 1 1 = 128 ∧
    (compositeNorm planC1 [slotC1]).pixel 1 1 = ⟨128, 128, 255, 255⟩ ∧
    (compositeMetal planC1 [slotC1]).pixel 0 0 = 0 ∧
    ¬ (compositeMetal planC1 [slotC1]).pixel 1 1 = 0 :=
  ⟨rfl, rfl, rfl, rfl, rfl, by decide⟩

/-! ## C10: slots whose material is empty / nodeless / principled-less -/

theorem mkResolved_some_index (idx : Nat) (b n r m : Option (Img RGBA))
    (uv : Option String) (s : SlotImages) (uv' : Option String)
    (h : mkResolved idx b n r m uv = some (s, uv')) : s.slot_index = idx := by
  unfold mkResolved at h
  by_cases hc : (b.isNone && n.isNone && r.isNone && m.isNone) = true
  · rw [if_pos hc] at h
    exact absurd h (by simp)
  · rw [if_neg hc] at h
    simp only [Option.some.injEq, Prod.mk.injEq] at h
    obtain ⟨h1, -⟩ := h
    rw [← h1]

theorem resolveSlot_some_index (idx : Nat) (m : Option Material) (s : SlotImages)
    (uv : Option String) (h : resolveSlot idx m = some (s, uv)) : s.slot_index = idx := by
  cases m with
  | none => simp [resolveSlot] at h
  | some mat =>
      unfold resolveSlot at h
      dsimp only at h
      by_cases hu : mat.use_nodes = false
      · rw [if_pos hu] at h
        simp at h
      · rw [if_neg hu] at h
        rcases ht : mat.node_tree with _ | nt
        · rw [ht] at h
          simp at h
        · rw [ht] at h
          dsimp only at h
          rcases hb : findPrincipled nt with _ | bsdf
          · rw [hb] at h
            simp at h
          · rw [hb] at h
            dsimp only at h
            exact mkResolved_some_index _ _ _ _ _ _ _ _ h

theorem resolveSlot_none_of_skip (idx : Nat) (m : Option Material)
    (h : m = none ∨ ∃ mat, m = some mat ∧ (mat.use_nodes = false ∨ mat.node_tree = none ∨
      ∃ nt, mat.node_tree = some nt ∧ findPrincipled nt = none)) :
    resolveSlot idx m = none := by
  rcases h with h | ⟨mat, hm, hcond⟩
  · rw [h]; rfl
  · rw [hm]
    unfold resolveSlot
    rcases hcond with h1 | h1 | ⟨nt, h3, h4⟩
    · simp [h1]
    · by_cases hu : mat.use_nodes = false
      · simp [hu]
      · simp [hu, h1]
    · by_cases hu : mat.use_nodes = false
      · simp [hu]
      · simp [hu, h3, h4]

theorem resolveSlotsAux_mem (mats : List (Option Material)) :
    ∀ i0 s, s ∈ (resolveSlotsAux i0 mats).1 →
      ∃ j, j < mats.length ∧ s.slot_index = i0 + j ∧
        resolveSlot (i0 + j) (mats.getD j none) ≠ none := by
  induction mats with
  | nil => intro i0 s hs; simp [resolveSlotsAux] at hs
  | cons m t ih =>
      intro i0 s hs
      unfold resolveSlotsAux at hs
      rcases hres : resolveSlot i0 m with _ | p
      · rw [hres] at hs
        obtain ⟨j, hj, hidx, hne⟩ := ih (i0 + 1) s hs
        refine ⟨j + 1, by simpa using hj, by omega, ?_⟩
        have heq : i0 + 1 + j = i0 + (j + 1) := by omega
        rw [heq] at hne
        simpa using hne
      · rcases p with ⟨s', uv⟩
        rw [hres] at hs
        simp only [List.mem_cons] at hs
        rcases hs with hs | hs
        · refine ⟨0, by simp, ?_, ?_⟩
          · rw [hs]
            have := resolveSlot_some_index i0 m s' uv hres
            omega
          · intro hc
            rw [Nat.add_zero] at hc
            simp only [List.getD_cons_zero] at hc
            rw [hres] at hc
            exact absurd hc (by simp)
        · obtain ⟨j, hj, hidx, hne⟩ := ih (i0 + 1) s hs
          refine ⟨j + 1, by simpa using hj, by omega, ?_⟩
          have : i0 + 1 + j = i0 + (j + 1) := by omega
          rw [this] at hne
          simpa using hne

theorem resolveSlotsAux_dict (mats : List (Option Material)) :
    ∀ i0 k, dictGet (resolveSlotsAux i0 mats).2 k ≠ none →
      ∃ j, j < mats.length ∧ k = i0 + j ∧
        resolveSlot (i0 + j) (mats.getD j none) ≠ none := by
  induction mats with
  | nil => intro i0 k h; simp [resolveSlotsAux, dictGet] at h
  | cons m t ih =>
      intro i0 k h
      unfold resolveSlotsAux at h
      rcases hres : resolveSlot i0 m with _ | p
      · rw [hres] at h
        obtain ⟨j, hj, hk, hne⟩ := ih (i0 + 1) k h
        refine ⟨j + 1, by simpa using hj, by omega, ?_⟩
        have : i0 + 1 + j = i0 + (j + 1) := by omega
        rw [this] at hne
        simpa using hne
      · rcases p with ⟨s', uv⟩
        rw [hres] at h
        simp only [dictGet] at h
        rcases hd : dictGet (resolveSlotsAux (i0 + 1) t).2 k with _ | w
        · rw [hd] at h
          by_cases hik : i0 = k
          · refine ⟨0, by simp, by omega, ?_⟩
            intro hc
            rw [Nat.add_zero] at hc
            simp only [List.getD_cons_zero] at hc
            rw [hres] at hc
            exact absurd hc (by simp)
          · rw [if_neg hik] at h
            exact absurd rfl h
        · have hne0 : dictGet (resolveSlotsAux (i0 + 1) t).2 k ≠ none := by
            rw [hd]; simp
          obtain ⟨j, hj, hk, hne⟩ := ih (i0 + 1) k hne0
          refine ⟨j + 1, by simpa using hj, by omega, ?_⟩
          have : i0 + 1 + j = i0 + (j + 1) := by omega
          rw [this] at hne
          simpa using hne

theorem dictGet_mem_of_ne_none {β : Type} (l : List (Nat × β)) (k : Nat)
    (h : dictGet l k ≠ none) : ∃ p ∈ l, p.1 = k := by
  induction l with
  | nil => simp [dictGet] at h
  | cons a t ih =>
      rcases a with ⟨a1, a2⟩
      simp only [dictGet] at h
      rcases hd : dictGet t k with _ | w
      · rw [hd] at h
        by_cases hik : a1 = k
        · exact ⟨(a1, a2), List.mem_cons_self _ _, hik⟩
        · rw [if_neg hik] at h
          exact absurd rfl h
      · obtain ⟨p, hp, hpk⟩ := ih (by rw [hd]; simp)
        exact ⟨p, List.mem_cons_of_mem _ hp, hpk⟩

theorem mkPlan_rects_uv (cfg : Config) (slots : List SlotImages) (mw mh : Nat) :
    (mkPlan cfg slots mw mh).rects_uv =
      (mkPlan cfg slots mw mh).rects_px.map (fun p =>
        (p.1, uvOfPx (mkPlan cfg slots mw mh).W (mkPlan cfg slots mw mh).H p.2)) := rfl

theorem mkPlan_rects_px_key (cfg : Config) (slots : List SlotImages) (mw mh : Nat)
    (p : Nat × RectPx) (hp : p ∈ (mkPlan cfg slots mw mh).rects_px) :
    ∃ k, k < slots.length ∧ p.1 = (slots.getD k default).slot_index := by
  rw [mkPlan_rects_px] at hp
  obtain ⟨k, hk, hpk⟩ := List.mem_map.1 hp
  have hk2 : k < slots.length :=
    lt_of_lt_of_le (List.mem_range.1 hk) (Nat.min_le_right _ _)
  exact ⟨k, hk2, by rw [← hpk]⟩

/-- **C10.**  A material slot whose material reference is empty, whose
material does not use nodes, or whose node graph has no Principled BSDF node
is skipped entirely: it contributes no `slot_images` entry, no
`slot_to_src_uv` entry, and no rectangle (pixel or UV) in any successful
atlas build over the resolved slots — even when its graph contains
`TEX_IMAGE` nodes — so during remapping its polygons find no rect and take
the pass-through branch. -/
theorem claim_C10_skip_conditions (mats : List (Option Material)) (idx : Nat)
    (hskip : mats.getD idx none = none ∨ ∃ mat, mats.getD idx none = some mat ∧
      (mat.use_nodes = false ∨ mat.node_tree = none ∨
        ∃ nt, mat.node_tree = some nt ∧ findPrincipled nt = none)) :
    (∀ s ∈ (resolveSlots mats).1, s.slot_index ≠ idx) ∧
    dictGet (resolveSlots mats).2 idx = none ∧
    (∀ cfg plan, buildPlan cfg (resolveSlots mats).1 = Except.ok plan →
      dictGet plan.rects_px idx = none ∧ dictGet plan.rects_uv idx = none) := by
  have hnone := resolveSlot_none_of_skip idx (mats.getD idx none) hskip
  have hmem : ∀ s ∈ (resolveSlots mats).1, s.slot_index ≠ idx := by
    intro s hs heq
    obtain ⟨j, hj, hidx, hne⟩ := resolveSlotsAux_mem mats 0 s hs
    have hji : j = idx := by omega
    subst hji
    rw [Nat.zero_add] at hne
    exact hne hnone
  refine ⟨hmem, ?_, ?_⟩
  · by_contra h
    obtain ⟨j, hj, hk, hne⟩ := resolveSlotsAux_dict mats 0 idx h
    have hji : j = idx := by omega
    subst hji
    rw [Nat.zero_add] at hne
    exact hne hnone
  · intro cfg plan hok
    obtain ⟨mw, mh, hp⟩ := buildPlan_ok cfg (resolveSlots mats).1 plan hok
    subst hp
    constructor
    · by_contra h
      obtain ⟨p, hpmem, hpk⟩ := dictGet_mem_of_ne_none _ idx h
      obtain ⟨k, hk, hkey⟩ := mkPlan_rects_px_key cfg _ mw mh p hpmem
      have hsmem : (resolveSlots mats).1.getD k default ∈ (resolveSlots mats).1 := by
        have := List.getD_eq_getElem ((resolveSlots mats).1) default hk
        rw [this]
        exact List.getElem_mem _
      exact hmem _ hsmem (by rw [← hkey, hpk])
    · by_contra h
      obtain ⟨p, hpmem, hpk⟩ := dictGet_mem_of_ne_none _ idx h
      rw [mkPlan_rects_uv] at hpmem
      obtain ⟨q, hq, hqp⟩ := List.mem_map.1 hpmem
      obtain ⟨k, hk, hkey⟩ := mkPlan_rects_px_key cfg _ mw mh q hq
      have hsmem : (resolveSlots mats).1.getD k default ∈ (resolveSlots mats).1 := by
        have := List.getD_eq_getElem ((resolveSlots mats).1) default hk
        rw [this]
        exact List.getElem_mem _
      have hq1 : q.1 = idx := by
        rw [← hqp] at hpk
        exact hpk
      exact hmem _ hsmem (by rw [← hkey, hq1])

def imgC10 : NGImage := ⟨"SomeTex", "sRGB", imgConst RGBA 2 2 ⟨1, 2, 3, 255⟩⟩

/-- A graph that DOES contain an image-source node, but no principled node. -/
def ntC10 : NodeTree := ⟨[⟨.TEX_IMAGE, "Image Texture", some imgC10, none, []⟩]⟩

def matC10 : Material := ⟨"NoPrincipled", true, some ntC10⟩

theorem claim_C10_skip_conditions_witness :
    ([some matC10].getD 0 none = none ∨ ∃ mat, [some matC10].getD 0 none = some mat ∧
      (mat.use_nodes = false ∨ mat.node_tree = none ∨
        ∃ nt, mat.node_tree = some nt ∧ findPrincipled nt = none)) ∧
    ((∀ s ∈ (resolveSlots [some matC10]).1, s.slot_index ≠ 0) ∧
    dictGet (resolveSlots [some matC10]).2 0 = none ∧
    (∀ cfg plan, buildPlan cfg (resolveSlots [some matC10]).1 = Except.ok plan →
      dictGet plan.rects_px 0 = none ∧ dictGet plan.rects_uv 0 = none)) :=
  ⟨Or.inr ⟨matC10, rfl, Or.inr (Or.inr ⟨ntC10, rfl, by rfl⟩)⟩,
   claim_C10_skip_conditions [some matC10] 0
     (Or.inr ⟨matC10, rfl, Or.inr (Or.inr ⟨ntC10, rfl, by rfl⟩)⟩)⟩

/-! ## Remap machinery lemmas -/

theorem uvGet_set_ne (d : List (ℚ × ℚ)) (i j : Nat) (v : ℚ × ℚ) (h : i ≠ j) :
    uvGet (d.set i v) j = uvGet d j := by
  unfold uvGet
  rw [List.getD_eq_getElem?_getD, List.getD_eq_getElem?_getD, List.getElem?_set_ne h]

theorem uvGet_set_self (d : List (ℚ × ℚ)) (i : Nat) (v : ℚ × ℚ) (h : i < d.length) :
    uvGet (d.set i v) i = v := by
  unfold uvGet
  rw [List.getD_eq_getElem?_getD, List.getElem?_set_self h]
  rfl

theorem set_uvGet_self (d : List (ℚ × ℚ)) (i : Nat) : d.set i (uvGet d i) = d := by
  rcases Nat.lt_or_ge i d.length with h | h
  · apply List.ext_getElem?
    intro j
    by_cases hij : i = j
    · subst hij
      rw [List.getElem?_set_self h]
      unfold uvGet
      rw [List.getD_eq_getElem?_getD]
      rcases h2 : d[i]? with _ | v
      · exact absurd h2 (by simp [List.getElem?_eq_none_iff]; omega)
      · rfl
    · rw [List.getElem?_set_ne hij]
  · exact List.set_eq_of_length_le h

theorem writeLoop_length (ctx : RemapCtx) (s : Nat) (r : Option RectUV)
    (d : List (ℚ × ℚ)) (li : Nat) : (writeLoop ctx s r d li).length = d.length := by
  unfold writeLoop
  cases r <;> simp [List.length_set]

theorem foldl_writeLoop_length (ctx : RemapCtx) (s : Nat) (r : Option RectUV) :
    ∀ (ts : List Nat) (d : List (ℚ × ℚ)),
      (ts.foldl (writeLoop ctx s r) d).length = d.length := by
  intro ts
  induction ts with
  | nil => intro d; rfl
  | cons t ts ih =>
      intro d
      simp only [List.foldl_cons]
      rw [ih, writeLoop_length]

theorem writeLoop_untouched (ctx : RemapCtx) (s : Nat) (r : Option RectUV)
    (d : List (ℚ × ℚ)) (t li : Nat) (h : t ≠ li) :
    uvGet (writeLoop ctx s r d t) li = uvGet d li := by
  unfold writeLoop
  cases r
  · exact uvGet_set_ne d t li _ h
  · exact uvGet_set_ne d t li _ h

theorem foldl_writeLoop_untouched (ctx : RemapCtx) (s : Nat) (r : Option RectUV) :
    ∀ (ts : List Nat) (d : List (ℚ × ℚ)) (li : Nat), li ∉ ts →
      uvGet (ts.foldl (writeLoop ctx s r) d) li = uvGet d li := by
  intro ts
  induction ts with
  | nil => intro d li _; rfl
  | cons t ts ih =>
      intro d li hli
      simp only [List.mem_cons, not_or] at hli
      simp only [List.foldl_cons]
      rw [ih _ li hli.2, writeLoop_untouched _ _ _ _ _ _ (fun hc => hli.1 hc.symm)]

/-- The value the rect branch (or the pass-through branch) writes at loop
`li`, when the source layer is NOT the destination layer (so the value does
not depend on the evolving destination data). -/
def writeVal (ctx : RemapCtx) (s : Nat) (r : Option RectUV) (li : Nat) : ℚ × ℚ :=
  match r with
  | none => uvGet (ctx.layers.getD s default).data li
  | some rr =>
      (rr.u0 + (uvGet (ctx.layers.getD s default).data li).1 * (rr.u1 - rr.u0),
       rr.v0 + (uvGet (ctx.layers.getD s default).data li).2 * (rr.v1 - rr.v0))

theorem writeLoop_eq_of_ne (ctx : RemapCtx) (s : Nat) (r : Option RectUV)
    (d : List (ℚ × ℚ)) (li : Nat) (hne : ¬ s = ctx.dstIdx) :
    writeLoop ctx s r d li = d.set li (writeVal ctx s r li) := by
  unfold writeLoop writeVal
  rw [if_neg hne]
  cases r <;> rfl

theorem foldl_writeLoop_write (ctx : RemapCtx) (s : Nat) (r : Option RectUV)
    (hne : ¬ s = ctx.dstIdx) :
    ∀ (ts : List Nat) (d : List (ℚ × ℚ)) (li : Nat), li < d.length → li ∈ ts →
      uvGet (ts.foldl (writeLoop ctx s r) d) li = writeVal ctx s r li := by
  intro ts
  induction ts with
  | nil => intro d li _ h; simp at h
  | cons t ts ih =>
      intro d li hlen hmem
      simp only [List.foldl_cons]
      by_cases hts : li ∈ ts
      · exact ih _ li (by rw [writeLoop_length]; exact hlen) hts
      · have hti : t = li := by
          rcases List.mem_cons.1 hmem with h | h
          · exact h.symm
          · exact absurd h hts
        rw [foldl_writeLoop_untouched ctx s r ts _ li hts, hti,
          writeLoop_eq_of_ne ctx s r d li hne, uvGet_set_self d li _ hlen]

theorem mem_polyRange (p : Polygon) (li : Nat) :
    li ∈ polyRange p ↔ p.loop_start ≤ li ∧ li < p.loop_start + p.loop_total := by
  unfold polyRange
  constructor
  · intro h
    obtain ⟨k, hk, hkl⟩ := List.mem_map.1 h
    have := List.mem_range.1 hk
    omega
  · intro h
    refine List.mem_map.2 ⟨li - p.loop_start, List.mem_range.2 (by omega), by omega⟩

theorem stepPoly_length (ctx : RemapCtx) (d : List (ℚ × ℚ)) (pp : Nat × Polygon) :
    (stepPoly ctx d pp).length = d.length := by
  unfold stepPoly
  rw [foldl_writeLoop_length]

theorem stepPoly_untouched (ctx : RemapCtx) (d : List (ℚ × ℚ)) (pp : Nat × Polygon)
    (li : Nat) (h : li < pp.2.loop_start ∨ pp.2.loop_start + pp.2.loop_total ≤ li) :
    uvGet (stepPoly ctx d pp) li = uvGet d li := by
  unfold stepPoly
  apply foldl_writeLoop_untouched
  rw [mem_polyRange]
  omega

theorem foldl_stepPoly_length (ctx : RemapCtx) :
    ∀ (L : List (Nat × Polygon)) (d : List (ℚ × ℚ)),
      (L.foldl (stepPoly ctx) d).length = d.length := by
  intro L
  induction L with
  | nil => intro d; rfl
  | cons q L ih =>
      intro d
      simp only [List.foldl_cons]
      rw [ih, stepPoly_length]

theorem foldl_stepPoly_untouched (ctx : RemapCtx) :
    ∀ (L : List (Nat × Polygon)) (d : List (ℚ × ℚ)) (li : Nat),
      (∀ q ∈ L, li < q.2.loop_start ∨ q.2.loop_start + q.2.loop_total ≤ li) →
      uvGet (L.foldl (stepPoly ctx) d) li = uvGet d li := by
  intro L
  induction L with
  | nil => intro d li _; rfl
  | cons q L ih =>
      intro d li h
      simp only [List.foldl_cons]
      rw [ih _ li (fun x hx => h x (List.mem_cons_of_mem q hx)),
        stepPoly_untouched ctx d q li (h q (List.mem_cons_self q L))]

theorem stepPoly_self_copy (ctx : RemapCtx) (d : List (ℚ × ℚ)) (pp : Nat × Polygon)
    (hsrc : chooseSrcIdx ctx (ctx.cache.getD pp.1 0) = ctx.dstIdx)
    (hrect : dictGet ctx.rects (ctx.cache.getD pp.1 0) = none) :
    stepPoly ctx d pp = d := by
  unfold stepPoly
  dsimp only
  rw [hsrc, hrect]
  generalize polyRange pp.2 = ts
  induction ts generalizing d with
  | nil => rfl
  | cons t ts ih =>
      simp only [List.foldl_cons]
      have hwl : writeLoop ctx ctx.dstIdx none d t = d := by
        unfold writeLoop
        rw [if_pos rfl]
        exact set_uvGet_self d t
      rw [hwl]
      exact ih d

theorem stepPoly_write (ctx : RemapCtx) (d : List (ℚ × ℚ)) (pidx : Nat) (p : Polygon)
    (li si : Nat) (r : RectUV)
    (hrect : dictGet ctx.rects (ctx.cache.getD pidx 0) = some r)
    (hsrc : chooseSrcIdx ctx (ctx.cache.getD pidx 0) = si)
    (hne : ¬ si = ctx.dstIdx)
    (hin : p.loop_start ≤ li ∧ li < p.loop_start + p.loop_total)
    (hlen : li < d.length) :
    uvGet (stepPoly ctx d (pidx, p)) li = writeVal ctx si (some r) li := by
  unfold stepPoly
  dsimp only
  rw [hsrc, hrect]
  exact foldl_writeLoop_write ctx si (some r) hne (polyRange p) d li hlen
    ((mem_polyRange p li).2 hin)

/-! ## Layer bookkeeping lemmas -/

theorem firstIdxByName_spec : ∀ (ls : List UVLayer) (n : String) (j : Nat),
    firstIdxByName ls n = some j → j < ls.length ∧ (ls.getD j default).name = n := by
  intro ls
  induction ls with
  | nil => intro n j h; simp [firstIdxByName] at h
  | cons l ls ih =>
      intro n j h
      unfold firstIdxByName at h
      by_cases hl : l.name = n
      · rw [if_pos hl] at h
        simp only [Option.some.injEq] at h
        subst h
        exact ⟨by simp, hl⟩
      · rw [if_neg hl] at h
        rcases hr : firstIdxByName ls n with _ | j'
        · rw [hr] at h; simp at h
        · rw [hr] at h
          simp only [Option.map_some', Option.some.injEq] at h
          subst h
          obtain ⟨h1, h2⟩ := ih n j' hr
          exact ⟨by simpa using Nat.succ_lt_succ h1, by simpa using h2⟩

theorem lastIdxByName_spec : ∀ (ls : List UVLayer) (n : String) (j : Nat),
    lastIdxByName ls n = some j → j < ls.length := by
  intro ls
  induction ls with
  | nil => intro n j h; simp [lastIdxByName] at h
  | cons l ls ih =>
      intro n j h
      unfold lastIdxByName at h
      rcases hr : lastIdxByName ls n with _ | j'
      · rw [hr] at h
        by_cases hl : l.name = n
        · rw [if_pos hl] at h
          simp only [Option.some.injEq] at h
          subst h
          simp
        · rw [if_neg hl] at h
          simp at h
      · rw [hr] at h
        simp only [Option.some.injEq] at h
        subst h
        simpa using Nat.succ_lt_succ (ih n j' hr)

theorem lastIdxByName_append_single :
    ∀ (ls : List UVLayer) (x : UVLayer) (nm : String), ¬ x.name = nm →
      lastIdxByName (ls ++ [x]) nm = lastIdxByName ls nm := by
  intro ls
  induction ls with
  | nil =>
      intro x nm h
      simp only [List.nil_append]
      unfold lastIdxByName
      rw [if_neg h]
      rfl
  | cons l ls ih =>
      intro x nm h
      simp only [List.cons_append]
      unfold lastIdxByName
      rw [ih x nm h]

theorem setLayerData_getD_ne (ls : List UVLayer) (i j : Nat) (d : List (ℚ × ℚ))
    (hne : ¬ i = j) (dd : UVLayer) :
    (setLayerData ls i d).getD j dd = ls.getD j dd := by
  unfold setLayerData
  cases h : ls[i]? with
  | none => rfl
  | some l =>
      rw [List.getD_eq_getElem?_getD, List.getElem?_set_ne hne, ← List.getD_eq_getElem?_getD]

theorem setLayerData_getD_self (ls : List UVLayer) (i : Nat) (d : List (ℚ × ℚ))
    (dd : UVLayer) (h : i < ls.length) :
    (setLayerData ls i d).getD i dd = ⟨(ls.getD i dd).name, d⟩ := by
  unfold setLayerData
  cases hh : ls[i]? with
  | none =>
      exfalso
      rw [List.getElem?_eq_none_iff] at hh
      omega
  | some l =>
      have hl : ls.getD i dd = l := by
        rw [List.getD_eq_getElem?_getD, hh]
        rfl
      rw [List.getD_eq_getElem?_getD, List.getElem?_set_self (by simpa using h), hl]
      rfl

theorem getD_append_self (ls : List UVLayer) (x : UVLayer) (dd : UVLayer) :
    (ls ++ [x]).getD ls.length dd = x := by
  rw [List.getD_eq_getElem?_getD, List.getElem?_append_right (le_refl _)]
  simp

theorem remapUVs_getD_ne (mesh : Mesh) (sts : List (Nat × Option String))
    (dstName : String) (rects : List (Nat × RectUV)) (cache : List Nat)
    (i : Nat) (dd : UVLayer) (hne : ¬ (setupLayers mesh dstName).2 = i) :
    (remapUVs mesh sts dstName rects cache).uv_layers.getD i dd
      = (setupLayers mesh dstName).1.getD i dd := by
  unfold remapUVs
  dsimp only
  exact setLayerData_getD_ne _ _ _ _ hne dd

theorem remapUVs_getD_dst (mesh : Mesh) (sts : List (Nat × Option String))
    (dstName : String) (rects : List (Nat × RectUV)) (cache : List Nat)
    (dd : UVLayer) (hlt : (setupLayers mesh dstName).2 < (setupLayers mesh dstName).1.length) :
    (remapUVs mesh sts dstName rects cache).uv_layers.getD (setupLayers mesh dstName).2 dd
      = ⟨((setupLayers mesh dstName).1.getD (setupLayers mesh dstName).2 dd).name,
         (mesh.polygons.enum).foldl
           (stepPoly ⟨(setupLayers mesh dstName).1, (setupLayers mesh dstName).2,
             (setupLayers mesh dstName).2, (setupLayers mesh dstName).2, sts, rects, cache⟩)
           (((setupLayers mesh dstName).1.getD (setupLayers mesh dstName).2 default).data)⟩ := by
  unfold remapUVs
  dsimp only
  exact setLayerData_getD_self _ _ _ dd hlt

/-! ## C9: the remapper writes only the destination UV-set -/

/-- **C9.**  The remapper writes only the single destination UV-set: every
pre-existing UV layer other than the destination keeps all its per-loop
`(u, v)` data unchanged (only the destination layer — looked up or newly
created under `dst_uv_name` — receives writes). -/
theorem claim_C9_sources_unchanged (mesh : Mesh) (slotToSrc : List (Nat × Option String))
    (dstName : String) (rects : List (Nat × RectUV)) (cache : List Nat) (i : Nat)
    (hi : i < mesh.uv_layers.length)
    (hname : ¬ (mesh.uv_layers.getD i default).name = dstName) :
    ((remapUVs mesh slotToSrc dstName rects cache).uv_layers.getD i default).data
      = (mesh.uv_layers.getD i default).data := by
  rcases hfi : firstIdxByName mesh.uv_layers dstName with _ | j
  · have hsetup : setupLayers mesh dstName
        = (mesh.uv_layers ++ [⟨dstName, dstInitData mesh⟩], mesh.uv_layers.length) := by
      unfold setupLayers
      rw [hfi]
    have hne : ¬ (setupLayers mesh dstName).2 = i := by
      rw [hsetup]
      omega
    rw [remapUVs_getD_ne mesh slotToSrc dstName rects cache i default hne, hsetup,
      List.getD_append _ _ _ i hi]
  · obtain ⟨hjlt, hjname⟩ := firstIdxByName_spec mesh.uv_layers dstName j hfi
    have hsetup : setupLayers mesh dstName = (mesh.uv_layers, j) := by
      unfold setupLayers
      rw [hfi]
    have hne : ¬ (setupLayers mesh dstName).2 = i := by
      rw [hsetup]
      intro hc
      simp only at hc
      subst hc
      exact hname hjname
    rw [remapUVs_getD_ne mesh slotToSrc dstName rects cache i default hne, hsetup]

def meshC9 : Mesh :=
  ⟨[⟨"UVKeep", [((1:ℚ)/5, (2:ℚ)/5)]⟩], 0, 0, [⟨0, 1, 0⟩], 1⟩

theorem claim_C9_sources_unchanged_witness :
    (0 < meshC9.uv_layers.length ∧
      ¬ (meshC9.uv_layers.getD 0 default).name = "BAKE_ATLAS") ∧
    ((remapUVs meshC9 [(0, some "UVKeep")] "BAKE_ATLAS"
        [(0, ⟨0, 0, 1, 1⟩)] [0]).uv_layers.getD 0 default).data
      = (meshC9.uv_layers.getD 0 default).data :=
  ⟨⟨by decide, by decide⟩,
   claim_C9_sources_unchanged meshC9 [(0, some "UVKeep")] "BAKE_ATLAS"
     [(0, ⟨0, 0, 1, 1⟩)] [0] 0 (by decide) (by decide)⟩

/-! ## C5: the affine rect remap formula -/

/-- **C5.**  For a polygon whose slot has a SlotRect `(u0, v0, u1, v1)` and
whose slot resolved a source UV-set name that exists on the mesh (as a layer
other than the destination), every loop `li` of that polygon gets exactly
`(u0 + su*(u1-u0), v0 + sv*(v1-v0))` written into the destination UV-set at
the same loop index, where `(su, sv)` is the source layer's UV at `li`;
in particular `(0,0) ↦ (u0,v0)`, `(1,1) ↦ (u1,v1)`, and the map is
affine-linear in `(su, sv)`.  (`l1`/`l2` decompose the polygon list around
the polygon in question, whose loop range is required not to be shared with
other polygons, as for a well-formed mesh.) -/
theorem claim_C5_affine_remap (mesh : Mesh) (slotToSrc : List (Nat × Option String))
    (dstName : String) (rects : List (Nat × RectUV)) (cache : List Nat)
    (l1 l2 : List (Nat × Polygon)) (pidx : Nat) (p : Polygon) (li si : Nat)
    (nm : String) (r : RectUV) (al : UVLayer)
    (hfresh : firstIdxByName mesh.uv_layers dstName = none)
    (hact : mesh.uv_layers[mesh.active_index]? = some al)
    (henum : mesh.polygons.enum = l1 ++ (pidx, p) :: l2)
    (houter : ∀ q ∈ l1 ++ l2, li < q.2.loop_start ∨ q.2.loop_start + q.2.loop_total ≤ li)
    (hin : p.loop_start ≤ li ∧ li < p.loop_start + p.loop_total)
    (hlen : li < al.data.length)
    (hsrcname : (dictGet slotToSrc (cache.getD pidx 0)).join = some nm)
    (hrect : dictGet rects (cache.getD pidx 0) = some r)
    (hfind : lastIdxByName mesh.uv_layers nm = some si)
    (hnm : ¬ nm = dstName)
    (hnonempty : ((mesh.uv_layers.getD si default).data).isEmpty = false) :
    uvGet (((remapUVs mesh slotToSrc dstName rects cache).uv_layers.getD
        mesh.uv_layers.length default).data) li
      = (r.u0 + (uvGet (mesh.uv_layers.getD si default).data li).1 * (r.u1 - r.u0),
         r.v0 + (uvGet (mesh.uv_layers.getD si default).data li).2 * (r.v1 - r.v0)) := by
  have hsetup : setupLayers mesh dstName
      = (mesh.uv_layers ++ [(⟨dstName, dstInitData mesh⟩ : UVLayer)], mesh.uv_layers.length) := by
    unfold setupLayers
    rw [hfresh]
  have hsi_lt : si < mesh.uv_layers.length := lastIdxByName_spec mesh.uv_layers nm si hfind
  have hgetD_si : (mesh.uv_layers ++ [(⟨dstName, dstInitData mesh⟩ : UVLayer)]).getD si default
      = mesh.uv_layers.getD si default := List.getD_append _ _ _ si hsi_lt
  have hfind2 : lastIdxByName (mesh.uv_layers ++ [(⟨dstName, dstInitData mesh⟩ : UVLayer)]) nm = some si := by
    rw [lastIdxByName_append_single mesh.uv_layers _ nm (by simpa using fun hc => hnm hc.symm)]
    exact hfind
  have hlt : (setupLayers mesh dstName).2 < (setupLayers mesh dstName).1.length := by
    rw [hsetup]
    simp
  have hmain := remapUVs_getD_dst mesh slotToSrc dstName rects cache default hlt
  rw [hsetup] at hmain
  simp only at hmain
  rw [hmain]
  have hd0 : ((mesh.uv_layers ++ [(⟨dstName, dstInitData mesh⟩ : UVLayer)]).getD
      mesh.uv_layers.length default).data = al.data := by
    rw [getD_append_self]
    unfold dstInitData
    rw [hact]
  rw [hd0]
  rw [henum, List.foldl_append]
  simp only [List.foldl_cons]
  have hctx_rects : (⟨mesh.uv_layers ++ [(⟨dstName, dstInitData mesh⟩ : UVLayer)],
      mesh.uv_layers.length, mesh.uv_layers.length, mesh.uv_layers.length,
      slotToSrc, rects, cache⟩ : RemapCtx).rects = rects := rfl
  set ctx : RemapCtx := ⟨mesh.uv_layers ++ [(⟨dstName, dstInitData mesh⟩ : UVLayer)],
      mesh.uv_layers.length, mesh.uv_layers.length, mesh.uv_layers.length,
      slotToSrc, rects, cache⟩ with hctx
  have houter2 : ∀ q ∈ l2, li < q.2.loop_start ∨ q.2.loop_start + q.2.loop_total ≤ li :=
    fun q hq => houter q (List.mem_append.2 (Or.inr hq))
  rw [foldl_stepPoly_untouched ctx l2 _ li houter2]
  have hsrc_ctx : chooseSrcIdx ctx (ctx.cache.getD pidx 0) = si := by
    unfold chooseSrcIdx
    have hcache : ctx.cache = cache := rfl
    have hsts : ctx.slotToSrc = slotToSrc := rfl
    rw [hcache, hsts, hsrcname]
    dsimp only
    rw [hfind2]
    dsimp only
    rw [hgetD_si, hnonempty]
    simp
  have hrect_ctx : dictGet ctx.rects (ctx.cache.getD pidx 0) = some r := hrect
  have hne : ¬ si = ctx.dstIdx := by
    have : ctx.dstIdx = mesh.uv_layers.length := rfl
    omega
  have hlen2 : li < (List.foldl (stepPoly ctx) al.data l1).length := by
    rw [foldl_stepPoly_length]
    exact hlen
  rw [stepPoly_write ctx _ pidx p li si r hrect_ctx hsrc_ctx hne hin hlen2]
  unfold writeVal
  have hlayers : ctx.layers = mesh.uv_layers ++ [(⟨dstName, dstInitData mesh⟩ : UVLayer)] := rfl
  rw [hlayers, hgetD_si]

def alC5 : UVLayer := ⟨"src", [((1:ℚ)/2, (1:ℚ)/3)]⟩

def meshC5 : Mesh := ⟨[alC5], 0, 0, [⟨0, 1, 0⟩], 1⟩

def rC5 : RectUV := ⟨1/4, 1/8, 3/4, 5/8⟩

theorem claim_C5_affine_remap_witness :
    (firstIdxByName meshC5.uv_layers "BAKE_ATLAS" = none ∧
     meshC5.uv_layers[meshC5.active_index]? = some alC5 ∧
     meshC5.polygons.enum = [] ++ (0, (⟨0, 1, 0⟩ : Polygon)) :: [] ∧
     (dictGet [(0, some "src")] (([0] : List Nat).getD 0 0)).join = some "src" ∧
     dictGet [(0, rC5)] (([0] : List Nat).getD 0 0) = some rC5 ∧
     lastIdxByName meshC5.uv_layers "src" = some 0) ∧
    uvGet (((remapUVs meshC5 [(0, some "src")] "BAKE_ATLAS" [(0, rC5)] [0]).uv_layers.getD
        meshC5.uv_layers.length default).data) 0
      = (rC5.u0 + (uvGet (meshC5.uv_layers.getD 0 default).data 0).1 * (rC5.u1 - rC5.u0),
         rC5.v0 + (uvGet (meshC5.uv_layers.getD 0 default).data 0).2 * (rC5.v1 - rC5.v0)) :=
  ⟨⟨by rfl, rfl, by rfl, by rfl, by rfl, by rfl⟩,
   claim_C5_affine_remap meshC5 [(0, some "src")] "BAKE_ATLAS" [(0, rC5)] [0]
     [] [] 0 ⟨0, 1, 0⟩ 0 0 "src" rC5 alC5
     (by rfl) rfl (by rfl) (by simp) (by decide) (by decide)
     (by rfl) (by rfl) (by rfl) (by decide) (by rfl)⟩

/-! ## C4: the pass-through fallback -/

def meshC4 : Mesh :=
  ⟨[⟨"UVA", [((1:ℚ)/2, (1:ℚ)/2)]⟩, ⟨"UVB", [((1:ℚ)/3, (1:ℚ)/4)]⟩], 1, 0, [⟨0, 1, 0⟩], 1⟩

/-- **C4, counterexample.**  Mesh with two UV layers: `UVA` is render-active
(value `(1/2, 1/2)` at loop 0) and also the first layer, `UVB` is the active
layer (value `(1/3, 1/4)`).  Slot 0 was skipped during resolution (no
`slot_to_src_uv` entry, no rect).  The claim says the polygon's destination
UV is copied verbatim from the render-active UV-set (there being no
slot-resolved name), i.e. `(1/2, 1/2)` — or from the first available UV-set
(also `(1/2, 1/2)`).  The code instead leaves `(1/3, 1/4)`: the remapper has
already made the freshly created destination layer itself the render-active
layer, so the fallback copy is a self-copy that keeps the destination's
initial content — a copy of the previously ACTIVE layer `UVB`. -/
theorem claim_C4_counterexample :
    ((remapUVs meshC4 [] "BAKE_ATLAS" [] [0]).uv_layers.getD 2 default).data
      = [((1:ℚ)/3, (1:ℚ)/4)] ∧
    (meshC4.uv_layers.getD meshC4.active_render_index default).data
      = [((1:ℚ)/2, (1:ℚ)/2)] ∧
    (meshC4.uv_layers.getD 0 default).data = [((1:ℚ)/2, (1:ℚ)/2)] ∧
    ¬ (((1:ℚ)/3, (1:ℚ)/4) = ((1:ℚ)/2, (1:ℚ)/2)) :=
  ⟨by rfl, by rfl, by rfl, by norm_num [Prod.ext_iff]⟩

/-- **C4, amended.**  For a polygon whose slot has no SlotRect: if the slot
has no resolved source UV-set name (the skipped-slot case — skipped slots
get no `slot_to_src_uv` entry), the fallback resolves to the render-active
UV layer, which the remapper has just set to be the destination layer
itself; the copy is therefore a self-copy, and the polygon's destination
loop UVs end up equal to the destination layer's initial content — for a
freshly created destination, a verbatim copy of the previously ACTIVE
UV-set (not the render-active one, and not the first available one).
(The slot's own resolved source UV-set, when its name is present and names
an existing non-empty layer, is still copied from directly, as in the
rect-less branch of C5's machinery.) -/
theorem claim_C4_amended (mesh : Mesh) (slotToSrc : List (Nat × Option String))
    (dstName : String) (rects : List (Nat × RectUV)) (cache : List Nat)
    (l1 l2 : List (Nat × Polygon)) (pidx : Nat) (p : Polygon) (li : Nat) (al : UVLayer)
    (hfresh : firstIdxByName mesh.uv_layers dstName = none)
    (hact : mesh.uv_layers[mesh.active_index]? = some al)
    (henum : mesh.polygons.enum = l1 ++ (pidx, p) :: l2)
    (houter : ∀ q ∈ l1 ++ l2, li < q.2.loop_start ∨ q.2.loop_start + q.2.loop_total ≤ li)
    (hsrcnone : (dictGet slotToSrc (cache.getD pidx 0)).join = none)
    (hrect : dictGet rects (cache.getD pidx 0) = none) :
    uvGet (((remapUVs mesh slotToSrc dstName rects cache).uv_layers.getD
        mesh.uv_layers.length default).data) li
      = uvGet al.data li := by
  have hsetup : setupLayers mesh dstName
      = (mesh.uv_layers ++ [(⟨dstName, dstInitData mesh⟩ : UVLayer)], mesh.uv_layers.length) := by
    unfold setupLayers
    rw [hfresh]
  have hlt : (setupLayers mesh dstName).2 < (setupLayers mesh dstName).1.length := by
    rw [hsetup]
    simp
  have hmain := remapUVs_getD_dst mesh slotToSrc dstName rects cache default hlt
  rw [hsetup] at hmain
  simp only at hmain
  rw [hmain]
  have hd0 : ((mesh.uv_layers ++ [(⟨dstName, dstInitData mesh⟩ : UVLayer)]).getD
      mesh.uv_layers.length default).data = al.data := by
    rw [getD_append_self]
    unfold dstInitData
    rw [hact]
  rw [hd0]
  rw [henum, List.foldl_append]
  simp only [List.foldl_cons]
  set ctx : RemapCtx := ⟨mesh.uv_layers ++ [(⟨dstName, dstInitData mesh⟩ : UVLayer)],
      mesh.uv_layers.length, mesh.uv_layers.length, mesh.uv_layers.length,
      slotToSrc, rects, cache⟩ with hctx
  have houter2 : ∀ q ∈ l2, li < q.2.loop_start ∨ q.2.loop_start + q.2.loop_total ≤ li :=
    fun q hq => houter q (List.mem_append.2 (Or.inr hq))
  have houter1 : ∀ q ∈ l1, li < q.2.loop_start ∨ q.2.loop_start + q.2.loop_total ≤ li :=
    fun q hq => houter q (List.mem_append.2 (Or.inl hq))
  rw [foldl_stepPoly_untouched ctx l2 _ li houter2]
  have hsrc_ctx : chooseSrcIdx ctx (ctx.cache.getD pidx 0) = ctx.dstIdx := by
    unfold chooseSrcIdx
    have hcache : ctx.cache = cache := rfl
    have hsts : ctx.slotToSrc = slotToSrc := rfl
    rw [hcache, hsts, hsrcnone]
    dsimp only
    unfold fallbackIdx
    have hlt2 : ctx.ari < ctx.layers.length := by
      rw [hctx]
      simp
    rw [if_pos hlt2, hctx]
  have hstep : stepPoly ctx (List.foldl (stepPoly ctx) al.data l1) (pidx, p)
      = List.foldl (stepPoly ctx) al.data l1 :=
    stepPoly_self_copy ctx _ (pidx, p) hsrc_ctx hrect
  rw [hstep]
  rw [foldl_stepPoly_untouched ctx l1 _ li houter1]

def meshC4w : Mesh :=
  ⟨[⟨"UVC", [((2:ℚ)/7, (3:ℚ)/7)]⟩, ⟨"UVD", [((4:ℚ)/7, (5:ℚ)/7)]⟩], 1, 0, [⟨0, 1, 0⟩], 1⟩

def alC4w : UVLayer := ⟨"UVD", [((4:ℚ)/7, (5:ℚ)/7)]⟩

theorem claim_C4_amended_witness :
    (firstIdxByName meshC4w.uv_layers "BAKE_ATLAS" = none ∧
     meshC4w.uv_layers[meshC4w.active_index]? = some alC4w ∧
     meshC4w.polygons.enum = [] ++ (0, (⟨0, 1, 0⟩ : Polygon)) :: [] ∧
     (dictGet ([] : List (Nat × Option String)) (([0] : List Nat).getD 0 0)).join = none ∧
     dictGet ([] : List (Nat × RectUV)) (([0] : List Nat).getD 0 0) = none) ∧
    uvGet (((remapUVs meshC4w [] "BAKE_ATLAS" [] [0]).uv_layers.getD
        meshC4w.uv_layers.length default).data) 0
      = uvGet alC4w.data 0 :=
  ⟨⟨by rfl, by rfl, by rfl, by rfl, by rfl⟩,
   claim_C4_amended meshC4w [] "BAKE_ATLAS" [] [0] [] [] 0 ⟨0, 1, 0⟩ 0 alC4w
     (by rfl) (by rfl) (by rfl) (by simp) (by rfl) (by rfl)⟩

/-! ## C6: rect invariants -/

/-- Two normalized rectangles overlap when their interiors intersect in both
axes. -/
def overlapUV (a b : RectUV) : Prop :=
  max a.u0 b.u0 < min a.u1 b.u1 ∧ max a.v0 b.v0 < min a.v1 b.v1

theorem overlapUV_comm (a b : RectUV) : overlapUV a b ↔ overlapUV b a := by
  unfold overlapUV
  rw [max_comm, min_comm, @max_comm _ _ a.v0, @min_comm _ _ a.v1]

theorem not_overlap_of_u_sep (a b : RectUV) (h : a.u1 ≤ b.u0) : ¬ overlapUV a b := by
  intro hov
  obtain ⟨h1, -⟩ := hov
  have h2 : min a.u1 b.u1 ≤ a.u1 := min_le_left _ _
  have h3 : b.u0 ≤ max a.u0 b.u0 := le_max_right _ _
  linarith

theorem not_overlap_of_v_sep (a b : RectUV) (h : a.v1 ≤ b.v0) : ¬ overlapUV a b := by
  intro hov
  obtain ⟨-, h1⟩ := hov
  have h2 : min a.v1 b.v1 ≤ a.v1 := min_le_left _ _
  have h3 : b.v0 ≤ max a.v0 b.v0 := le_max_right _ _
  linarith

theorem pxRectAt_x_sep (P tw th cols k k' : Nat) (h : k % cols + 1 ≤ k' % cols) :
    (pxRectAt P tw th cols k).x1 ≤ (pxRectAt P tw th cols k').x0 := by
  unfold pxRectAt
  dsimp only
  have h1 : (k % cols + 1) * (tw + P) ≤ (k' % cols) * (tw + P) :=
    Nat.mul_le_mul_right _ h
  have h2 : (k % cols + 1) * (tw + P) = (k % cols) * (tw + P) + (tw + P) := by ring
  omega

theorem pxRectAt_y_sep (P tw th cols k k' : Nat) (h : k / cols + 1 ≤ k' / cols) :
    (pxRectAt P tw th cols k).y1 ≤ (pxRectAt P tw th cols k').y0 := by
  unfold pxRectAt
  dsimp only
  have h1 : (k / cols + 1) * (th + P) ≤ (k' / cols) * (th + P) :=
    Nat.mul_le_mul_right _ h
  have h2 : (k / cols + 1) * (th + P) = (k / cols) * (th + P) + (th + P) := by ring
  omega

theorem pxRectAt_x1_le (P tw th cols k W : Nat) (hc : k % cols < cols)
    (hW : cols * tw + (cols + 1) * P ≤ W) : (pxRectAt P tw th cols k).x1 ≤ W := by
  unfold pxRectAt
  dsimp only
  have h1 : (k % cols + 1) * (tw + P) ≤ cols * (tw + P) :=
    Nat.mul_le_mul_right _ hc
  have h2 : (k % cols + 1) * (tw + P) = (k % cols) * (tw + P) + tw + P := by ring
  have h3 : cols * (tw + P) + P = cols * tw + (cols + 1) * P := by ring
  omega

theorem pxRectAt_y1_le (P tw th rows cols k H : Nat) (hr : k / cols < rows)
    (hH : rows * th + (rows + 1) * P ≤ H) : (pxRectAt P tw th cols k).y1 ≤ H := by
  unfold pxRectAt
  dsimp only
  have h1 : (k / cols + 1) * (th + P) ≤ rows * (th + P) :=
    Nat.mul_le_mul_right _ hr
  have h2 : (k / cols + 1) * (th + P) = (k / cols) * (th + P) + th + P := by ring
  have h3 : rows * (th + P) + P = rows * th + (rows + 1) * P := by ring
  omega

theorem uvOfPx_bounds (P tw th rows cols W H k : Nat)
    (htw : 1 ≤ tw) (hth : 1 ≤ th) (hcols : 1 ≤ cols) (hk : k < rows * cols)
    (hW : cols * tw + (cols + 1) * P ≤ W) (hH : rows * th + (rows + 1) * P ≤ H) :
    0 ≤ (uvOfPx W H (pxRectAt P tw th cols k)).u0 ∧
    (uvOfPx W H (pxRectAt P tw th cols k)).u0 < (uvOfPx W H (pxRectAt P tw th cols k)).u1 ∧
    (uvOfPx W H (pxRectAt P tw th cols k)).u1 ≤ 1 ∧
    0 ≤ (uvOfPx W H (pxRectAt P tw th cols k)).v0 ∧
    (uvOfPx W H (pxRectAt P tw th cols k)).v0 < (uvOfPx W H (pxRectAt P tw th cols k)).v1 ∧
    (uvOfPx W H (pxRectAt P tw th cols k)).v1 ≤ 1 := by
  have hc : k % cols < cols := Nat.mod_lt k hcols
  have hr : k / cols < rows := (Nat.div_lt_iff_lt_mul hcols).2 hk
  have hx1 : (pxRectAt P tw th cols k).x1 ≤ W := pxRectAt_x1_le P tw th cols k W hc hW
  have hy1 : (pxRectAt P tw th cols k).y1 ≤ H := pxRectAt_y1_le P tw th rows cols k H hr hH
  have hct : 1 ≤ cols * tw := Nat.mul_le_mul hcols htw
  have hWpos : 0 < W := by omega
  have hrows : 1 ≤ rows := by
    by_contra hrc
    have h0 : rows = 0 := by omega
    subst h0
    simp at hk
  have hrt : 1 ≤ rows * th := Nat.mul_le_mul hrows hth
  have hHpos : 0 < H := by omega
  have hWq : (0:ℚ) < (W:ℚ) := by exact_mod_cast hWpos
  have hHq : (0:ℚ) < (H:ℚ) := by exact_mod_cast hHpos
  have hx01 : (pxRectAt P tw th cols k).x0 < (pxRectAt P tw th cols k).x1 := by
    unfold pxRectAt
    dsimp only
    omega
  have hy01 : (pxRectAt P tw th cols k).y0 < (pxRectAt P tw th cols k).y1 := by
    unfold pxRectAt
    dsimp only
    omega
  unfold uvOfPx
  dsimp only
  refine ⟨?_, ?_, ?_, ?_, ?_, ?_⟩
  · exact div_nonneg (Nat.cast_nonneg _) (Nat.cast_nonneg _)
  · rw [div_lt_div_iff_of_pos_right hWq]
    exact_mod_cast hx01
  · rw [div_le_one hWq]
    exact_mod_cast hx1
  · rw [sub_nonneg, div_le_one hHq]
    exact_mod_cast hy1
  · rw [sub_lt_sub_iff_left, div_lt_div_iff_of_pos_right hHq]
    exact_mod_cast hy01
  · exact sub_le_self 1 (div_nonneg (Nat.cast_nonneg _) (Nat.cast_nonneg _))

theorem uvOfPx_u_sep (W H : Nat) (hW : 0 < W) (a b : RectPx) (h : a.x1 ≤ b.x0) :
    (uvOfPx W H a).u1 ≤ (uvOfPx W H b).u0 := by
  unfold uvOfPx
  dsimp only
  have hWq : (0:ℚ) < (W:ℚ) := by exact_mod_cast hW
  rw [div_le_div_iff_of_pos_right hWq]
  exact_mod_cast h

theorem uvOfPx_v_sep (W H : Nat) (hH : 0 < H) (a b : RectPx) (h : b.y1 ≤ a.y0) :
    (uvOfPx W H a).v1 ≤ (uvOfPx W H b).v0 := by
  unfold uvOfPx
  dsimp only
  have hHq : (0:ℚ) < (H:ℚ) := by exact_mod_cast hH
  apply sub_le_sub_left
  rw [div_le_div_iff_of_pos_right hHq]
  exact_mod_cast h

theorem uvOfPx_disjoint (P tw th rows cols W H k k' : Nat)
    (htw : 1 ≤ tw) (hth : 1 ≤ th) (hcols : 1 ≤ cols)
    (hk : k < rows * cols) (hk' : k' < rows * cols) (hne : k ≠ k')
    (hW : cols * tw + (cols + 1) * P ≤ W) (hH : rows * th + (rows + 1) * P ≤ H) :
    ¬ overlapUV (uvOfPx W H (pxRectAt P tw th cols k))
        (uvOfPx W H (pxRectAt P tw th cols k')) := by
  have hct : 1 ≤ cols * tw := Nat.mul_le_mul hcols htw
  have hWpos : 0 < W := by omega
  have hrows : 1 ≤ rows := by
    by_contra hrc
    have : rows = 0 := by omega
    subst this
    simp at hk
  have hrt : 1 ≤ rows * th := Nat.mul_le_mul hrows hth
  have hHpos : 0 < H := by omega
  by_cases hcc : k % cols = k' % cols
  · have hrr : k / cols ≠ k' / cols := by
      intro hq
      apply hne
      have h1 := Nat.div_add_mod k cols
      have h2 := Nat.div_add_mod k' cols
      rw [hq] at h1
      omega
    rcases Nat.lt_or_ge (k / cols) (k' / cols) with hlt | hge
    · rw [overlapUV_comm]
      exact not_overlap_of_v_sep _ _
        (uvOfPx_v_sep W H hHpos _ _ (pxRectAt_y_sep P tw th cols k k' (by omega)))
    · have hlt2 : k' / cols < k / cols := by omega
      exact not_overlap_of_v_sep _ _
        (uvOfPx_v_sep W H hHpos _ _ (pxRectAt_y_sep P tw th cols k' k (by omega)))
  · rcases Nat.lt_or_ge (k % cols) (k' % cols) with hlt | hge
    · exact not_overlap_of_u_sep _ _
        (uvOfPx_u_sep W H hWpos _ _ (pxRectAt_x_sep P tw th cols k k' (by omega)))
    · have hlt2 : k' % cols < k % cols := by omega
      rw [overlapUV_comm]
      exact not_overlap_of_u_sep _ _
        (uvOfPx_u_sep W H hWpos _ _ (pxRectAt_x_sep P tw th cols k' k (by omega)))

theorem buildPlan_ok_strong (cfg : Config) (slots : List SlotImages) (plan : Plan)
    (hok : buildPlan cfg slots = Except.ok plan) :
    ∃ sz szs, probeSizes slots = Except.ok (sz :: szs) ∧
      plan = mkPlan cfg slots
        (szs.foldl (fun a p => max a p.1) sz.1)
        (szs.foldl (fun a p => max a p.2) sz.2) := by
  unfold buildPlan at hok
  rcases h1 : probeSizes slots with e | szs
  · rw [h1] at hok
    exact absurd hok (by simp)
  · rw [h1] at hok
    cases szs with
    | nil => exact absurd hok (by simp)
    | cons sz t =>
        exact ⟨sz, t, rfl, by simpa using hok.symm⟩

theorem probeSizes_mem (slots : List SlotImages) (szs : List (Nat × Nat))
    (hp : probeSizes slots = Except.ok szs) :
    ∀ q ∈ szs, ∃ s ∈ slots, ∃ im, s.base_path = some im ∧ q = (im.width, im.height) := by
  induction slots generalizing szs with
  | nil =>
      intro q hq
      unfold probeSizes at hp
      simp only [Except.ok.injEq] at hp
      subst hp
      simp at hq
  | cons s t ih =>
      intro q hq
      unfold probeSizes at hp
      rcases hb : s.base_path with _ | im
      · rw [hb] at hp
        exact absurd hp (by simp)
      · rw [hb] at hp
        dsimp only at hp
        rcases hr : probeSizes t with e | szs'
        · rw [hr] at hp
          simp [Except.map] at hp
        · rw [hr] at hp
          simp only [Except.map, Except.ok.injEq] at hp
          subst hp
          rcases List.mem_cons.1 hq with h | h
          · exact ⟨s, List.mem_cons_self s t, im, hb, h⟩
          · obtain ⟨s', hs', im', hb', hq'⟩ := ih szs' hr q h
            exact ⟨s', List.mem_cons_of_mem s hs', im', hb', hq'⟩

theorem le_foldl_max {β : Type} (f : β → Nat) (l : List β) (a : Nat) :
    a ≤ l.foldl (fun x p => max x (f p)) a := by
  induction l generalizing a with
  | nil => exact le_refl a
  | cons b t ih =>
      simp only [List.foldl_cons]
      exact le_trans (Nat.le_max_left a (f b)) (ih (max a (f b)))

theorem probeSizes_length (slots : List SlotImages) (szs : List (Nat × Nat))
    (hp : probeSizes slots = Except.ok szs) : szs.length = slots.length := by
  induction slots generalizing szs with
  | nil =>
      unfold probeSizes at hp
      simp only [Except.ok.injEq] at hp
      subst hp
      rfl
  | cons s t ih =>
      unfold probeSizes at hp
      rcases hb : s.base_path with _ | im
      · rw [hb] at hp
        exact absurd hp (by simp)
      · rw [hb] at hp
        dsimp only at hp
        rcases hr : probeSizes t with e | szs'
        · rw [hr] at hp
          simp [Except.map] at hp
        · rw [hr] at hp
          simp only [Except.map, Except.ok.injEq] at hp
          subst hp
          simpa using ih szs' hr

theorem chooseLayout_cols_pos (mode : LayoutMode) (n : Nat) (hn : 1 ≤ n) :
    1 ≤ (chooseLayout mode n).2 := by
  cases mode with
  | auto => exact ceilSqrt_pos n hn
  | row => exact hn
  | col => exact le_refl 1
  | explicitGrid r c => simp [chooseLayout]

theorem mkPlan_tw_def (cfg : Config) (slots : List SlotImages) (mw mh : Nat) :
    (mkPlan cfg slots mw mh).tw
      = (match cfg.tile_w with
         | some t => if t = 0 then mw else t
         | none => mw) := rfl

theorem mkPlan_th_def (cfg : Config) (slots : List SlotImages) (mw mh : Nat) :
    (mkPlan cfg slots mw mh).th
      = (match cfg.tile_h with
         | some t => if t = 0 then mh else t
         | none => mh) := rfl

theorem mkPlan_tw_pos (cfg : Config) (slots : List SlotImages) (mw mh : Nat)
    (hmw : 1 ≤ mw) : 1 ≤ (mkPlan cfg slots mw mh).tw := by
  rw [mkPlan_tw_def]
  rcases cfg.tile_w with _ | t
  · exact hmw
  · dsimp only
    by_cases ht : t = 0
    · rw [if_pos ht]; exact hmw
    · rw [if_neg ht]; omega

theorem mkPlan_th_pos (cfg : Config) (slots : List SlotImages) (mw mh : Nat)
    (hmh : 1 ≤ mh) : 1 ≤ (mkPlan cfg slots mw mh).th := by
  rw [mkPlan_th_def]
  rcases cfg.tile_h with _ | t
  · exact hmh
  · dsimp only
    by_cases ht : t = 0
    · rw [if_pos ht]; exact hmh
    · rw [if_neg ht]; omega

theorem mkPlan_cols_def (cfg : Config) (slots : List SlotImages) (mw mh : Nat) :
    (mkPlan cfg slots mw mh).cols = (chooseLayout cfg.layout slots.length).2 := rfl

theorem mkPlan_rows_def (cfg : Config) (slots : List SlotImages) (mw mh : Nat) :
    (mkPlan cfg slots mw mh).rows = (chooseLayout cfg.layout slots.length).1 := rfl

theorem mkPlan_padding_def (cfg : Config) (slots : List SlotImages) (mw mh : Nat) :
    (mkPlan cfg slots mw mh).padding = cfg.padding := rfl

theorem mkPlan_W_ge (cfg : Config) (slots : List SlotImages) (mw mh : Nat) :
    (mkPlan cfg slots mw mh).cols * (mkPlan cfg slots mw mh).tw
      + ((mkPlan cfg slots mw mh).cols + 1) * (mkPlan cfg slots mw mh).padding
      ≤ (mkPlan cfg slots mw mh).W := by
  have hW : (mkPlan cfg slots mw mh).W
      = (if cfg.force_pow2 then
           pow2 ((mkPlan cfg slots mw mh).cols * (mkPlan cfg slots mw mh).tw +
             ((mkPlan cfg slots mw mh).cols + 1) * (mkPlan cfg slots mw mh).padding)
         else (mkPlan cfg slots mw mh).cols * (mkPlan cfg slots mw mh).tw +
             ((mkPlan cfg slots mw mh).cols + 1) * (mkPlan cfg slots mw mh).padding) := rfl
  rw [hW]
  split
  · exact pow2_ge _
  · exact le_refl _

theorem mkPlan_H_ge (cfg : Config) (slots : List SlotImages) (mw mh : Nat) :
    (mkPlan cfg slots mw mh).rows * (mkPlan cfg slots mw mh).th
      + ((mkPlan cfg slots mw mh).rows + 1) * (mkPlan cfg slots mw mh).padding
      ≤ (mkPlan cfg slots mw mh).H := by
  have hH : (mkPlan cfg slots mw mh).H
      = (if cfg.force_pow2 then
           pow2 ((mkPlan cfg slots mw mh).rows * (mkPlan cfg slots mw mh).th +
             ((mkPlan cfg slots mw mh).rows + 1) * (mkPlan cfg slots mw mh).padding)
         else (mkPlan cfg slots mw mh).rows * (mkPlan cfg slots mw mh).th +
             ((mkPlan cfg slots mw mh).rows + 1) * (mkPlan cfg slots mw mh).padding) := rfl
  rw [hH]
  split
  · exact pow2_ge _
  · exact le_refl _

theorem mkPlan_rects_px_length (cfg : Config) (slots : List SlotImages) (mw mh : Nat) :
    (mkPlan cfg slots mw mh).rects_px.length
      = min ((chooseLayout cfg.layout slots.length).1 *
          (chooseLayout cfg.layout slots.length).2) slots.length := by
  rw [mkPlan_rects_px, List.length_map, List.length_range]

theorem mkPlan_rects_uv_length (cfg : Config) (slots : List SlotImages) (mw mh : Nat) :
    (mkPlan cfg slots mw mh).rects_uv.length
      = min ((chooseLayout cfg.layout slots.length).1 *
          (chooseLayout cfg.layout slots.length).2) slots.length := by
  rw [mkPlan_rects_uv, List.length_map, mkPlan_rects_px_length]

theorem mkPlan_rects_px_getD (cfg : Config) (slots : List SlotImages) (mw mh k : Nat)
    (hk : k < (mkPlan cfg slots mw mh).rects_px.length) :
    (mkPlan cfg slots mw mh).rects_px.getD k default
      = ((slots.getD k default).slot_index,
         pxRectAt cfg.padding (mkPlan cfg slots mw mh).tw (mkPlan cfg slots mw mh).th
           (chooseLayout cfg.layout slots.length).2 k) := by
  rw [mkPlan_rects_px_length] at hk
  rw [mkPlan_rects_px, getD_map_range _ _ _ _ hk]

theorem mkPlan_rects_uv_getD (cfg : Config) (slots : List SlotImages) (mw mh k : Nat)
    (hk : k < (mkPlan cfg slots mw mh).rects_uv.length) :
    (mkPlan cfg slots mw mh).rects_uv.getD k default
      = ((slots.getD k default).slot_index,
         uvOfPx (mkPlan cfg slots mw mh).W (mkPlan cfg slots mw mh).H
           (pxRectAt cfg.padding (mkPlan cfg slots mw mh).tw (mkPlan cfg slots mw mh).th
             (chooseLayout cfg.layout slots.length).2 k)) := by
  rw [mkPlan_rects_uv_length] at hk
  rw [mkPlan_rects_uv, mkPlan_rects_px, List.map_map, getD_map_range _ _ _ _ hk]
  rfl

/-- **C6.**  Every SlotRect of a successful atlas build (over source images
of nonzero size) satisfies `0 ≤ u0 < u1 ≤ 1` and `0 ≤ v0 < v1 ≤ 1`; the
normalized rectangle is obtained from the pixel rectangle by `u = x/W`,
`v0 = 1 - y1/H`, `v1 = 1 - y0/H` (bottom-left-origin convention); and the
rectangles of two distinct placements never overlap. -/
theorem claim_C6_rect_invariants (cfg : Config) (slots : List SlotImages) (plan : Plan)
    (hok : buildPlan cfg slots = Except.ok plan)
    (himg : ∀ s ∈ slots, ∀ im, s.base_path = some im → 1 ≤ im.width ∧ 1 ≤ im.height) :
    (∀ k, k < plan.rects_uv.length →
      0 ≤ (plan.rects_uv.getD k default).2.u0 ∧
      (plan.rects_uv.getD k default).2.u0 < (plan.rects_uv.getD k default).2.u1 ∧
      (plan.rects_uv.getD k default).2.u1 ≤ 1 ∧
      0 ≤ (plan.rects_uv.getD k default).2.v0 ∧
      (plan.rects_uv.getD k default).2.v0 < (plan.rects_uv.getD k default).2.v1 ∧
      (plan.rects_uv.getD k default).2.v1 ≤ 1) ∧
    (∀ k, k < plan.rects_px.length →
      plan.rects_uv.getD k default
        = ((plan.rects_px.getD k default).1,
           uvOfPx plan.W plan.H (plan.rects_px.getD k default).2)) ∧
    (∀ i j, i < plan.rects_uv.length → j < plan.rects_uv.length → i ≠ j →
      ¬ overlapUV (plan.rects_uv.getD i default).2 (plan.rects_uv.getD j default).2) := by
  obtain ⟨sz, szs, hp, hplan⟩ := buildPlan_ok_strong cfg slots plan hok
  subst hplan
  obtain ⟨s0, hs0, im0, hbase0, hq0⟩ :=
    probeSizes_mem slots (sz :: szs) hp sz (List.mem_cons_self _ _)
  have hsz1 : 1 ≤ sz.1 := by
    rw [hq0]
    exact (himg s0 hs0 im0 hbase0).1
  have hsz2 : 1 ≤ sz.2 := by
    rw [hq0]
    exact (himg s0 hs0 im0 hbase0).2
  have hmw : 1 ≤ szs.foldl (fun a p => max a p.1) sz.1 :=
    le_trans hsz1 (le_foldl_max Prod.fst szs sz.1)
  have hmh : 1 ≤ szs.foldl (fun a p => max a p.2) sz.2 :=
    le_trans hsz2 (le_foldl_max Prod.snd szs sz.2)
  have hn : 1 ≤ slots.length := by
    have := probeSizes_length slots (sz :: szs) hp
    simp only [List.length_cons] at this
    omega
  have hcols : 1 ≤ (chooseLayout cfg.layout slots.length).2 :=
    chooseLayout_cols_pos cfg.layout slots.length hn
  have htw : 1 ≤ (mkPlan cfg slots (szs.foldl (fun a p => max a p.1) sz.1)
      (szs.foldl (fun a p => max a p.2) sz.2)).tw :=
    mkPlan_tw_pos cfg slots _ _ hmw
  have hth : 1 ≤ (mkPlan cfg slots (szs.foldl (fun a p => max a p.1) sz.1)
      (szs.foldl (fun a p => max a p.2) sz.2)).th :=
    mkPlan_th_pos cfg slots _ _ hmh
  have hW := mkPlan_W_ge cfg slots (szs.foldl (fun a p => max a p.1) sz.1)
      (szs.foldl (fun a p => max a p.2) sz.2)
  have hH := mkPlan_H_ge cfg slots (szs.foldl (fun a p => max a p.1) sz.1)
      (szs.foldl (fun a p => max a p.2) sz.2)
  rw [mkPlan_cols_def, mkPlan_padding_def] at hW
  rw [mkPlan_rows_def, mkPlan_padding_def] at hH
  refine ⟨?_, ?_, ?_⟩
  · intro k hk
    have hkrc : k < (chooseLayout cfg.layout slots.length).1 *
        (chooseLayout cfg.layout slots.length).2 := by
      rw [mkPlan_rects_uv_length] at hk
      omega
    rw [mkPlan_rects_uv_getD cfg slots _ _ k hk]
    exact uvOfPx_bounds cfg.padding _ _ (chooseLayout cfg.layout slots.length).1
      (chooseLayout cfg.layout slots.length).2 _ _ k htw hth hcols hkrc hW hH
  · intro k hk
    have hk2 : k < (mkPlan cfg slots (szs.foldl (fun a p => max a p.1) sz.1)
        (szs.foldl (fun a p => max a p.2) sz.2)).rects_uv.length := by
      rw [mkPlan_rects_uv_length]
      rw [mkPlan_rects_px_length] at hk
      exact hk
    rw [mkPlan_rects_uv_getD cfg slots _ _ k hk2, mkPlan_rects_px_getD cfg slots _ _ k hk]
  · intro i j hi hj hij
    have hirc : i < (chooseLayout cfg.layout slots.length).1 *
        (chooseLayout cfg.layout slots.length).2 := by
      rw [mkPlan_rects_uv_length] at hi
      omega
    have hjrc : j < (chooseLayout cfg.layout slots.length).1 *
        (chooseLayout cfg.layout slots.length).2 := by
      rw [mkPlan_rects_uv_length] at hj
      omega
    rw [mkPlan_rects_uv_getD cfg slots _ _ i hi, mkPlan_rects_uv_getD cfg slots _ _ j hj]
    exact uvOfPx_disjoint cfg.padding _ _ (chooseLayout cfg.layout slots.length).1
      (chooseLayout cfg.layout slots.length).2 _ _ i j htw hth hcols hirc hjrc hij hW hH

def imgC6 : Img RGBA := imgConst RGBA 2 2 ⟨3, 4, 5, 255⟩

def cfgC6w : Config := ⟨1, some 2, some 2, false, LayoutMode.row⟩

def slotsC6 : List SlotImages :=
  [⟨0, some imgC6, none, none, none⟩, ⟨1, some imgC6, none, none, none⟩]

def planC6w : Plan := (buildPlan cfgC6w slotsC6).toOption.getD default

theorem slotsC6_img_pos :
    ∀ s ∈ slotsC6, ∀ im, s.base_path = some im → 1 ≤ im.width ∧ 1 ≤ im.height := by
  intro s hs im him
  rcases List.mem_cons.1 hs with h | h
  · subst h
    have h3 : some imgC6 = some im := him
    injection h3 with h4
    subst h4
    exact ⟨by decide, by decide⟩
  · rcases List.mem_cons.1 h with h' | h'
    · subst h'
      have h3 : some imgC6 = some im := him
      injection h3 with h4
      subst h4
      exact ⟨by decide, by decide⟩
    · cases h'

theorem claim_C6_rect_invariants_witness :
    (buildPlan cfgC6w slotsC6 = Except.ok planC6w ∧
     (∀ s ∈ slotsC6, ∀ im, s.base_path = some im → 1 ≤ im.width ∧ 1 ≤ im.height)) ∧
    ((∀ k, k < planC6w.rects_uv.length →
      0 ≤ (planC6w.rects_uv.getD k default).2.u0 ∧
      (planC6w.rects_uv.getD k default).2.u0 < (planC6w.rects_uv.getD k default).2.u1 ∧
      (planC6w.rects_uv.getD k default).2.u1 ≤ 1 ∧
      0 ≤ (planC6w.rects_uv.getD k default).2.v0 ∧
      (planC6w.rects_uv.getD k default).2.v0 < (planC6w.rects_uv.getD k default).2.v1 ∧
      (planC6w.rects_uv.getD k default).2.v1 ≤ 1) ∧
    (∀ k, k < planC6w.rects_px.length →
      planC6w.rects_uv.getD k default
        = ((planC6w.rects_px.getD k default).1,
           uvOfPx planC6w.W planC6w.H (planC6w.rects_px.getD k default).2)) ∧
    (∀ i j, i < planC6w.rects_uv.length → j < planC6w.rects_uv.length → i ≠ j →
      ¬ overlapUV (planC6w.rects_uv.getD i default).2 (planC6w.rects_uv.getD j default).2)) :=
  ⟨⟨by rfl, slotsC6_img_pos⟩,
   claim_C6_rect_invariants cfgC6w slotsC6 planC6w (by rfl) slotsC6_img_pos⟩
